import Mathlib

/-!
Verification development for the `mirrorme` web-mirroring tool
(`src/mirrorme/mirror.py`).  The Python source is shallowly embedded:

* URLs are plain strings; `urllib.parse` accessors (`urldefrag`, `hostname`,
  `path`) are modelled for the `scheme://host/path?query#fragment` shapes the
  program handles.
* Filesystem paths (`pathlib.Path`) are lists of components; the `/` join
  operator splits its right operand on `"/"` and drops empty and `"."` parts,
  as `pathlib` does.
* `to_rel_path` reads the filesystem through `target.exists()`; that probe is
  made explicit as an `fs : List FsPath` argument.  `hashlib.sha1(url)[:8]` is
  an explicit `urlHash : String → String` argument; no theorem below depends
  on its value.
* The `context.on("response", ...)` handler and the crawl loop become explicit
  state-transition functions; the cooperative-concurrency interleaving of the
  handler is modelled by splitting it at its `await` point into a check phase
  and a commit phase.
-/

namespace MirrorMe

/-! ## Characters and strings -/

/-- Characters kept by the sanitizing regex `[^A-Za-z0-9._/\-]` in `_safe_path`
and `to_rel_path`. -/
def safeChar (c : Char) : Bool :=
  c.isAlpha || c.isDigit || c == '.' || c == '_' || c == '/' || c == '-'

/-- Models `re.sub(r"[^A-Za-z0-9._/\-]", "_", s)`: replace every unsafe character by
an underscore. -/
def sanitize (s : String) : String :=
  ⟨s.data.map (fun c => if safeChar c then c else '_')⟩

/-- Lower-case every character (`str.lower` on the ASCII inputs used here). -/
def strLower (s : String) : String :=
  ⟨s.data.map Char.toLower⟩

/-- Contiguous-sublist test on character lists. -/
def infixOfL (n : List Char) : List Char → Bool
  | [] => n.isEmpty
  | c :: t => n.isPrefixOf (c :: t) || infixOfL n t

/-- Python `needle in hay` on strings: contiguous-substring membership. -/
def substrOf (needle hay : String) : Bool :=
  infixOfL needle.data hay.data

/-- Models `s.strip('\x27"')`: remove single/double quotes from both ends. -/
def stripQuotes (s : String) : String :=
  let isQ : Char → Bool := fun c => c == '\'' || c == '"'
  ⟨((s.data.dropWhile isQ).reverse.dropWhile isQ).reverse⟩

/-- Split a character list at every character satisfying `p` (empty pieces
kept, as in `str.split(sep)`). -/
def splitPredL (p : Char → Bool) : List Char → List (List Char)
  | [] => [[]]
  | c :: t =>
    let r := splitPredL p t
    if p c then [] :: r else (c :: r.headD []) :: r.tail

/-- Split a string on a single-character separator, keeping empty pieces. -/
def splitOnChar (sep : Char) (s : String) : List String :=
  (splitPredL (fun c => c == sep) s.data).map (fun l => ⟨l⟩)

/-- Python `str.split()` with no argument: split on whitespace runs, no empty
pieces. -/
def wsSplit (s : String) : List String :=
  ((splitPredL Char.isWhitespace s.data).map (fun l => (⟨l⟩ : String))).filter
    (fun t => !(t == ""))

/-- Models `s.strip()` (whitespace from both ends). -/
def trimWs (s : String) : String :=
  ⟨((s.data.dropWhile Char.isWhitespace).reverse.dropWhile Char.isWhitespace).reverse⟩

/-- Does the string end with the given character? -/
def endsWithChar (s : String) (c : Char) : Bool :=
  s.data.getLast? == some c

/-- Lexicographic comparison by code points, as Python compares strings. -/
def lexLe : List Char → List Char → Bool
  | [], _ => true
  | _ :: _, [] => false
  | a :: as, b :: bs => if a = b then lexLe as bs else decide (a < b)

/-! ## URL accessors (`urllib.parse`) -/

/-- Models `urllib.parse.urldefrag(u)[0]`: the text before the first `#`. -/
def urlNorm (u : String) : String :=
  ⟨u.data.takeWhile (fun c => !(c == '#'))⟩

/-- The text after the first occurrence of `"://"` in a character list. -/
def afterSchemeMarker : List Char → Option (List Char)
  | ':' :: '/' :: '/' :: rest => some rest
  | _ :: t => afterSchemeMarker t
  | [] => none

/-- The text after the first `"://"`, if any. -/
def schemeRest (u : String) : Option String :=
  (afterSchemeMarker u.data).map (fun l => ⟨l⟩)

/-- The authority component: after `"://"`, up to the first `/`, `?` or `#`. -/
def netloc (u : String) : String :=
  match schemeRest u with
  | none => ""
  | some r => ⟨r.data.takeWhile (fun c => !(c == '/' || c == '?' || c == '#'))⟩

/-- Models `urlparse(u).hostname`: the authority without userinfo and port,
lower-cased; `none` when empty (or when the URL has no `://`). -/
def hostname (u : String) : Option String :=
  let hostport := ((netloc u).data.reverse.takeWhile (fun c => !(c == '@'))).reverse
  let h := strLower ⟨hostport.takeWhile (fun c => !(c == ':'))⟩
  if h = "" then none else some h

/-- Models `urlparse(u).path`: after the authority, before `?` or `#`. -/
def urlPath (u : String) : String :=
  match schemeRest u with
  | none => ⟨u.data.takeWhile (fun c => !(c == '?' || c == '#'))⟩
  | some r =>
    let afterHost := r.data.dropWhile (fun c => !(c == '/' || c == '?' || c == '#'))
    ⟨afterHost.takeWhile (fun c => !(c == '?' || c == '#'))⟩

/-! ## Filesystem paths (`os.path`, `pathlib`) -/

/-- A `pathlib.Path`, as its list of components; an absolute path carries a
leading `"/"` root marker, as in `PurePosixPath.parts`. -/
abbrev FsPath := List String

/-- Does the string begin with `'/'` (a POSIX-absolute operand)? -/
def startsWithSlash (s : String) : Bool :=
  s.data.head? == some '/'

/-- The components a single `pathlib` join contributes: split on `"/"`,
dropping empty and `"."` parts. -/
def segs (s : String) : FsPath :=
  (splitOnChar '/' s).filter (fun c => !(c == "" || c == "."))

/-- Models `p / s` in `pathlib`: an absolute right operand (leading `"/"`)
replaces the accumulated path, keeping a `"/"` root marker; otherwise its
components are appended. -/
def pathJoin (p : FsPath) (s : String) : FsPath :=
  if startsWithSlash s then "/" :: segs s else p ++ segs s

/-- Models `p.with_name n`: replace the last component. -/
def withName (p : FsPath) (n : String) : FsPath :=
  p.dropLast ++ [n]

/-- Models `os.path.splitext`.  The extension starts at the last dot of the basename,
unless only dots precede that position in the basename. -/
def splitext (p : String) : String × String :=
  let l := p.data
  let base := (l.reverse.takeWhile (fun c => !(c == '/'))).reverse
  let dirs := l.take (l.length - base.length)
  let lead := base.takeWhile (fun c => c == '.')
  let rest := base.drop lead.length
  let afterDot := rest.reverse.takeWhile (fun c => !(c == '.'))
  if afterDot.length = rest.length then (p, "")
  else
    let ext : List Char := '.' :: afterDot.reverse
    let namePart := rest.take (rest.length - ext.length)
    (⟨dirs ++ lead ++ namePart⟩, ⟨ext⟩)

/-- Models `s.lstrip("/")`. -/
def lstripSlash (s : String) : String :=
  ⟨s.data.dropWhile (fun c => c == '/')⟩

/-- Length of the common prefix of two component lists
(`os.path.commonprefix`). -/
def cpl : List String → List String → Nat
  | a :: as, b :: bs => if a = b then cpl as bs + 1 else 0
  | _, _ => 0

/-- Models `os.path.relpath(path, start)` on component lists: climb out of the
non-shared part of `start`, then descend into `path`; `["."]` when equal. -/
def relpathL (path start : FsPath) : FsPath :=
  let i := cpl start path
  let rel := List.replicate (start.length - i) ".." ++ path.drop i
  if rel = [] then ["."] else rel

/-- Models `make_relative(from_path, to_path)`: `os.path.relpath(to_path,
start=from_path.parent)`, kept as components. -/
def makeRelativeL (fromPath toPath : FsPath) : FsPath :=
  relpathL toPath fromPath.dropLast

/-- The string `make_relative` actually splices into documents. -/
def makeRelative (fromPath toPath : FsPath) : String :=
  String.intercalate "/" (makeRelativeL fromPath toPath)

/-- Resolve a component list: drop `"."`, let `".."` pop the previous
component.  Used to state where a produced path actually points. -/
def normalizePath (l : FsPath) : FsPath :=
  l.foldl (fun acc c => if c = ".." then acc.dropLast else if c = "." then acc else acc ++ [c]) []

/-! ## Configuration and the path resolver (`to_rel_path`) -/

/-- The fields of `MirrorConfig` the embedded core reads. -/
structure MirrorConfig where
  startUrl : String
  maxDepth : Nat := 3
  extraAllowedHosts : List String := []
  allHostAssets : Bool := false
  stripCsp : Bool := true
  concurrency : Nat := 4
  assetsMode : String := "flat"
  assetsDir : String := "assets"

/-- Models `to_rel_path(out_dir, url, cfg, start_host, is_html_hint)`.  `fs` stands
for the filesystem consulted by `target.exists()`; `urlHash` for
`hashlib.sha1(url.encode()).hexdigest()[:8]`. -/
def toRelPath (outDir : FsPath) (url : String) (cfg : MirrorConfig) (startHost : Option String)
    (isHtmlHint : Option Bool) (fs : List FsPath) (urlHash : String → String) : FsPath :=
  let host := (hostname url).getD "unknown"
  let path0 := if urlPath url = "" then "/" else urlPath url
  let path1 := if endsWithChar path0 '/' then path0 ++ "index.html" else path0
  let ext0 := (splitext path1).2
  let path2 := if ext0 = "" then path1 ++ ".html" else path1
  let ext := if ext0 = "" then ".html" else ext0
  let safe := sanitize (lstripSlash path2)
  let isHtml := match isHtmlHint with
    | none => strLower ext == ".html"
    | some b => b
  if isHtml then
    pathJoin (pathJoin (pathJoin outDir "pages")
      (((hostname url).orElse (fun _ => startHost)).getD "unknown")) safe
  else
    let mode := strLower (if cfg.assetsMode = "" then "flat" else cfg.assetsMode)
    if mode = "pages" then
      pathJoin (pathJoin (pathJoin (pathJoin (pathJoin outDir "pages")
        (startHost.getD "unknown")) cfg.assetsDir) host) safe
    else if mode = "per-host" then
      pathJoin (pathJoin (pathJoin outDir cfg.assetsDir) host) safe
    else
      let target := pathJoin (pathJoin outDir cfg.assetsDir) safe
      if target ∈ fs then
        let h := urlHash url
        let se := splitext (target.getLastD "")
        withName target (se.1 ++ "__" ++ h ++ se.2)
      else target

/-- The flat-mode target before the `target.exists()` collision probe. -/
def flatTarget (outDir : FsPath) (url : String) (cfg : MirrorConfig) : FsPath :=
  let path0 := if urlPath url = "" then "/" else urlPath url
  let path1 := if endsWithChar path0 '/' then path0 ++ "index.html" else path0
  let ext0 := (splitext path1).2
  let path2 := if ext0 = "" then path1 ++ ".html" else path1
  pathJoin (pathJoin outDir cfg.assetsDir) (sanitize (lstripSlash path2))

/-! ## The response handler (`handle_response`) -/

/-- One network response as observed by `handle_response`: its URL, status,
content type, and whether the body retrieval / file write succeeds (`writeOk`
models the `try`/`except` around the body fetch and the `open`/`write`). -/
structure Response where
  url : String
  status : Nat
  contentType : String
  writeOk : Bool := true

/-- The shared state `handle_response` mutates: the `saved_assets` dict, the
filesystem, and a log of the body writes performed. -/
structure AssetState where
  saved : List (String × FsPath) := []
  fs : List FsPath := []
  writes : List (String × FsPath) := []

/-- Dict lookup in `saved_assets` (later assignments are prepended, so the
first hit is the current value). -/
def lookupA (u : String) (l : List (String × FsPath)) : Option FsPath :=
  (l.find? (fun e => e.1 == u)).map (fun e => e.2)

/-- Models `handle_response` from `mirror.py`, run to completion without
interleaving.  A failed body fetch / write (`writeOk = false`) is swallowed by
the `except: pass` and leaves the state unchanged. -/
def handleResponse (cfg : MirrorConfig) (outDir : FsPath) (startHost : Option String)
    (allowed : List String) (urlHash : String → String) (st : AssetState) (r : Response) :
    AssetState :=
  let url := urlNorm r.url
  let host := (hostname url).getD ""
  if r.status ≠ 200 then st
  else if substrOf "text/html" r.contentType then st
  else if allowed.contains host || cfg.allHostAssets then
    let path := toRelPath outDir url cfg startHost (some false) st.fs urlHash
    if lookupA url st.saved = none then
      if r.writeOk then
        { saved := (url, path) :: st.saved, fs := path :: st.fs,
          writes := st.writes ++ [(url, path)] }
      else st
    else st
  else st

/-! ## The crawl (`fetch_page` and the batch loop in `run_mirror_async`) -/

/-- The rendering/parsing collaborators, abstracted: `nav u` is the status of
`page.goto(u)` (`none` models a falsy `resp`), `anchors u` the absolute
`urljoin`ed hrefs of the `<a>` tags extracted from the rendered page. -/
structure Web where
  nav : String → Option Nat
  anchors : String → List String

/-- State shared by the crawl: `visited_pages` (with the depth each page was
dispatched at), the log of `page.goto` invocations, `to_visit`, and
`page_html_paths` (tracked by page URL). -/
structure CrawlState where
  visited : List (String × Nat)
  navs : List String
  queue : List (String × Nat)
  pages : List String

/-- Models `url_norm(cfg.start_url)` computed by `run_mirror_async`. -/
def startNorm (cfg : MirrorConfig) : String := urlNorm cfg.startUrl

/-- Models `start_host` in `run_mirror_async`. -/
def startHostOf (cfg : MirrorConfig) : Option String := hostname (startNorm cfg)

/-- Models `allowed_hosts`: the start host (when present) plus the extra allow-list. -/
def allowedHosts (cfg : MirrorConfig) : List String :=
  (match startHostOf cfg with
   | some h => [h]
   | none => []) ++ cfg.extraAllowedHosts

/-- The anchors a fetched page enqueues: normalized, and filtered by
`if host and host == start_host`. -/
def scopedAnchors (web : Web) (cfg : MirrorConfig) (u : String) : List String :=
  ((web.anchors u).map urlNorm).filter (fun a =>
    match hostname a, startHostOf cfg with
    | some h, some sh => h == sh
    | _, _ => false)

/-- Models `fetch_page(url, depth)`: normalize, skip if visited or too deep, mark
visited, navigate; on status 200 save the page and enqueue the in-scope
anchors at depth+1. -/
def fetchPage (web : Web) (cfg : MirrorConfig) (st : CrawlState) (u : String) (d : Nat) :
    CrawlState :=
  let un := urlNorm u
  if st.visited.any (fun e => e.1 == un) || decide (d > cfg.maxDepth) then st
  else
    let st1 : CrawlState :=
      { st with visited := st.visited ++ [(un, d)], navs := st.navs ++ [un] }
    match web.nav un with
    | some 200 =>
      { st1 with pages := st1.pages ++ [un],
                 queue := st1.queue ++ (scopedAnchors web cfg un).map (fun a => (a, d + 1)) }
    | _ => st1

/-- The batch-building inner `while`: pop up to `c` entries, skipping ones
already visited; returns (batch, remaining queue). -/
def takeBatch (c : Nat) (visQ : String → Bool) :
    List (String × Nat) → List (String × Nat) × List (String × Nat)
  | [] => ([], [])
  | e :: t =>
    if c = 0 then ([], e :: t)
    else if visQ e.1 then takeBatch c visQ t
    else
      let br := takeBatch (c - 1) visQ t
      (e :: br.1, br.2)

/-- Models `asyncio.gather` over one batch, as its sequential effect on the shared
state (the handlers' frontier/visited mutations are serialized by the event
loop). -/
def processBatch (web : Web) (cfg : MirrorConfig) (st : CrawlState)
    (b : List (String × Nat)) : CrawlState :=
  b.foldl (fun s e => fetchPage web cfg s e.1 e.2) st

/-- Membership test against `visited_pages` at batch-building time. -/
def visQof (st : CrawlState) : String → Bool :=
  fun u => st.visited.any (fun e => e.1 == u)

/-- The outer `while to_visit:` loop, fuelled.  The boolean is true when the
loop exited normally (empty queue or empty batch), false when fuel ran out. -/
def crawlLoop (web : Web) (cfg : MirrorConfig) : Nat → CrawlState → CrawlState × Bool
  | 0, st => (st, false)
  | fuel + 1, st =>
    if st.queue = [] then (st, true)
    else
      let br := takeBatch cfg.concurrency (visQof st) st.queue
      if br.1 = [] then ({ st with queue := br.2 }, true)
      else crawlLoop web cfg fuel (processBatch web cfg { st with queue := br.2 } br.1)

/-- The crawl state seeded by `run_mirror_async`. -/
def initState (cfg : MirrorConfig) : CrawlState :=
  ⟨[], [], [(startNorm cfg, 0)], []⟩

/-- Pages reachable from the start URL along status-200 pages and in-scope
anchors, with the length of the witnessing path. -/
inductive Reach (web : Web) (cfg : MirrorConfig) : String → Nat → Prop
  | start : Reach web cfg (startNorm cfg) 0
  | step {v : String} {d : Nat} {a : String} : Reach web cfg v d →
      web.nav v = some 200 → a ∈ scopedAnchors web cfg v → Reach web cfg a (d + 1)

/-- Stable insertion into a sorted list, by code-point order. -/
def insertSorted (a : String) : List String → List String
  | [] => [a]
  | b :: t => if lexLe a.data b.data then a :: b :: t else b :: insertSorted a t

/-- The `sorted(page_html_paths.items())` enumeration written to
`index.html`, by page URL. -/
def indexEntries (pages : List String) : List String :=
  pages.foldr insertSorted []

/-! ## The crawl with navigation exceptions

`fetch_page`'s body is `try ... finally: await page.close()` with no
`except`: an exception raised by `page.goto` (navigation error or timeout)
propagates through `asyncio.gather` and aborts the whole loop.  `raises u`
models `page.goto(u)` raising. -/

/-- Models `Web` plus which navigations raise. -/
structure WebE extends Web where
  raises : String → Bool

/-- Models `fetch_page` when `page.goto` may raise: the exception escapes the
function (the `finally` only closes the page). -/
def fetchPageE (web : WebE) (cfg : MirrorConfig) (st : CrawlState) (u : String) (d : Nat) :
    Except Unit CrawlState :=
  let un := urlNorm u
  if st.visited.any (fun e => e.1 == un) || decide (d > cfg.maxDepth) then Except.ok st
  else if web.raises un then Except.error ()
  else Except.ok (fetchPage web.toWeb cfg st u d)

/-- Models `asyncio.gather`: the first exception propagates to the awaiting loop. -/
def processBatchE (web : WebE) (cfg : MirrorConfig) (st : CrawlState)
    (b : List (String × Nat)) : Except Unit CrawlState :=
  b.foldlM (fun s e => fetchPageE web cfg s e.1 e.2) st

/-- The crawl loop when navigations may raise: an uncaught exception aborts
the run (it propagates out of `run_mirror_async`). -/
def crawlLoopE (web : WebE) (cfg : MirrorConfig) :
    Nat → CrawlState → Except Unit (CrawlState × Bool)
  | 0, st => Except.ok (st, false)
  | fuel + 1, st =>
    if st.queue = [] then Except.ok (st, true)
    else
      let br := takeBatch cfg.concurrency (visQof st) st.queue
      if br.1 = [] then Except.ok ({ st with queue := br.2 }, true)
      else
        match processBatchE web cfg { st with queue := br.2 } br.1 with
        | Except.error e => Except.error e
        | Except.ok st2 => crawlLoopE web cfg fuel st2

/-! ## Interleaved executions of `handle_response`

`handle_response` computes the target path and performs the
`url not in saved_assets` check synchronously, then suspends at
`await res.body()`, and only afterwards writes the file and records the
entry.  Two handler tasks for responses can therefore interleave at that
await point.  A task is modelled by its two atomic phases. -/

/-- Context shared by all handler tasks of a run. -/
structure HandlerCtx where
  cfg : MirrorConfig
  outDir : FsPath
  startHost : Option String
  allowed : List String
  urlHash : String → String
  rs : List Response

/-- Task-local state after the check phase: the guards passed and the path
`to_rel_path` returned. -/
structure HandlerLocal where
  passed : Bool
  path : FsPath

/-- Shared state plus each task's local state (`none` before its check). -/
structure HandlerRun where
  shared : AssetState
  locals : List (Option HandlerLocal)

/-- A scheduler event: run task `i`'s check phase or its commit phase. -/
inductive HandlerEv
  | check (i : Nat)
  | commit (i : Nat)

/-- Check phase of task `i`: the guards, the `to_rel_path` call (against the
current filesystem) and the `url not in saved_assets` test, all before the
`await res.body()` suspension. -/
def doCheck (ctx : HandlerCtx) (s : HandlerRun) (i : Nat) : HandlerRun :=
  match ctx.rs.get? i with
  | none => s
  | some r =>
    let url := urlNorm r.url
    let host := (hostname url).getD ""
    if r.status ≠ 200 then s
    else if substrOf "text/html" r.contentType then s
    else if ctx.allowed.contains host || ctx.cfg.allHostAssets then
      let path := toRelPath ctx.outDir url ctx.cfg ctx.startHost (some false) s.shared.fs ctx.urlHash
      if lookupA url s.shared.saved = none then
        { s with locals := s.locals.set i (some ⟨true, path⟩) }
      else s
    else s

/-- Commit phase of task `i`: after the body arrives, write the file and
record the entry — with no re-check of `saved_assets`. -/
def doCommit (ctx : HandlerCtx) (s : HandlerRun) (i : Nat) : HandlerRun :=
  match ctx.rs.get? i, s.locals.getD i none with
  | some r, some l =>
    if l.passed && r.writeOk then
      { s with shared :=
          { saved := (urlNorm r.url, l.path) :: s.shared.saved,
            fs := l.path :: s.shared.fs,
            writes := s.shared.writes ++ [(urlNorm r.url, l.path)] } }
    else s
  | _, _ => s

/-- Run a schedule of handler phases. -/
def execSched (ctx : HandlerCtx) : List HandlerEv → HandlerRun → HandlerRun
  | [], s => s
  | HandlerEv.check i :: evs, s => execSched ctx evs (doCheck ctx s i)
  | HandlerEv.commit i :: evs, s => execSched ctx evs (doCommit ctx s i)

/-- The run state before any handler task has executed. -/
def initHandlerRun (ctx : HandlerCtx) : HandlerRun :=
  ⟨{}, List.replicate ctx.rs.length none⟩

/-! ## The rewrite engine (`rewrite_urls_in_text`) -/

/-- The body of `repl_srcset`'s per-token loop: trim, drop empty tokens,
split off the descriptor, look the URL up in the mapping; a hit becomes the
relative path plus descriptor, a miss stays as the (trimmed) token. -/
def srcsetToken (mapping : List (String × FsPath)) (baseFile : FsPath) (tok0 : String) :
    Option String :=
  let tok := trimWs tok0
  if tok = "" then none
  else
    let bits := wsSplit tok
    let u := stripQuotes (bits.getD 0 "")
    let rest := String.intercalate " " bits.tail
    match lookupA u mapping with
    | some p => some (trimWs (makeRelative baseFile p ++ " " ++ rest))
    | none => some tok

/-- Models `repl_srcset` applied to the captured `srcset` attribute value. -/
def replSrcset (mapping : List (String × FsPath)) (baseFile : FsPath) (srcset : String) :
    String :=
  "srcset=\"" ++
    String.intercalate ", "
      ((splitOnChar ',' srcset).filterMap (srcsetToken mapping baseFile)) ++
    "\""

/-- A match of the `(?:src|href)\s*=\s*("|\x27)([^"\x27]+)\1` regex, by its
decomposition: attribute name, whitespace around `=`, quote character, and
the quoted URL (which by the regex contains neither quote character). -/
structure AttrMatch where
  attr : String
  ws1 : String
  ws2 : String
  quote : Char
  url : String

/-- Models `m.group(0)`: the full matched text. -/
def AttrMatch.text (m : AttrMatch) : String :=
  m.attr ++ m.ws1 ++ "=" ++ m.ws2 ++ String.singleton m.quote ++ m.url ++
    String.singleton m.quote

/-- Models `m.group(0).split("=")[0]`: for the matches this regex produces (`src` or
`href`, then whitespace), the text before the first `=`. -/
def AttrMatch.beforeEq (m : AttrMatch) : String := m.attr ++ m.ws1

/-- Models `sub_url`: replace a mapped URL by its relative path, keep the match
verbatim otherwise. -/
def subUrl (mapping : List (String × FsPath)) (baseFile : FsPath) (m : AttrMatch) : String :=
  let u := stripQuotes m.url
  match lookupA u mapping with
  | some p =>
    m.beforeEq ++ "=" ++ String.singleton m.quote ++ makeRelative baseFile p ++
      String.singleton m.quote
  | none => m.text

/-- Models `css_url` applied to a match of `url\(([^)]+)\)` with inner text
`inner`. -/
def cssUrl (mapping : List (String × FsPath)) (baseFile : FsPath) (inner : String) : String :=
  let u := stripQuotes inner
  match lookupA u mapping with
  | some p => "url(\"" ++ makeRelative baseFile p ++ "\")"
  | none => "url(" ++ inner ++ ")"

/-! ## Basic lemmas about the embedding -/

theorem takeWhile_idem {p : Char → Bool} (l : List Char) :
    (l.takeWhile p).takeWhile p = l.takeWhile p := by
  induction l with
  | nil => rfl
  | cons c t ih =>
    by_cases h : p c = true
    · simp [List.takeWhile, h, ih]
    · simp [List.takeWhile, h]

theorem urlNorm_idem (u : String) : urlNorm (urlNorm u) = urlNorm u := by
  simp [urlNorm, takeWhile_idem]

theorem scopedAnchors_norm {web : Web} {cfg : MirrorConfig} {v a : String}
    (h : a ∈ scopedAnchors web cfg v) : urlNorm a = a := by
  have h1 : a ∈ (web.anchors v).map urlNorm := List.mem_of_mem_filter h
  obtain ⟨b, _, rfl⟩ := List.mem_map.mp h1
  exact urlNorm_idem b

theorem startNorm_norm (cfg : MirrorConfig) : urlNorm (startNorm cfg) = startNorm cfg :=
  urlNorm_idem cfg.startUrl

/-- Whether a page URL is already in `visited_pages`. -/
theorem visQof_eq (st : CrawlState) (u : String) :
    visQof st u = true ↔ ∃ dv, (u, dv) ∈ st.visited := by
  simp only [visQof, List.any_eq_true]
  constructor
  · rintro ⟨⟨a, b⟩, hmem, hb⟩
    have ha : a = u := by simpa using hb
    subst ha
    exact ⟨b, hmem⟩
  · rintro ⟨dv, hmem⟩
    exact ⟨(u, dv), hmem, by simp⟩

/-! ### Shape lemmas for `fetchPage` -/

/-- Models `fetch_page` is a no-op when the URL is visited or the entry is too
deep. -/
theorem fetchPage_skip {web : Web} {cfg : MirrorConfig} {st : CrawlState} {u : String}
    {d : Nat} (h : st.visited.any (fun e => e.1 == urlNorm u) = true ∨ d > cfg.maxDepth) :
    fetchPage web cfg st u d = st := by
  rcases h with h | h <;> simp [fetchPage, h]

/-- Models `fetch_page` on a fresh, in-depth URL whose navigation returns 200. -/
theorem fetchPage_visit_ok {web : Web} {cfg : MirrorConfig} {st : CrawlState} {u : String}
    {d : Nat} (h1 : st.visited.any (fun e => e.1 == urlNorm u) = false)
    (h2 : d ≤ cfg.maxDepth) (h3 : web.nav (urlNorm u) = some 200) :
    fetchPage web cfg st u d =
      ⟨st.visited ++ [(urlNorm u, d)], st.navs ++ [urlNorm u],
       st.queue ++ (scopedAnchors web cfg (urlNorm u)).map (fun a => (a, d + 1)),
       st.pages ++ [urlNorm u]⟩ := by
  have hd : ¬ d > cfg.maxDepth := Nat.not_lt.mpr h2
  simp [fetchPage, h1, hd, h3]

/-- Models `fetch_page` on a fresh, in-depth URL whose navigation is falsy or
non-200: visited is marked, nothing else changes. -/
theorem fetchPage_visit_fail {web : Web} {cfg : MirrorConfig} {st : CrawlState} {u : String}
    {d : Nat} (h1 : st.visited.any (fun e => e.1 == urlNorm u) = false)
    (h2 : d ≤ cfg.maxDepth) (h3 : web.nav (urlNorm u) ≠ some 200) :
    fetchPage web cfg st u d =
      ⟨st.visited ++ [(urlNorm u, d)], st.navs ++ [urlNorm u], st.queue, st.pages⟩ := by
  have hd : ¬ d > cfg.maxDepth := Nat.not_lt.mpr h2
  have hcond : (st.visited.any (fun e => e.1 == urlNorm u) ||
      decide (d > cfg.maxDepth)) = false := by simp [h1, hd]
  simp only [fetchPage, hcond]
  rw [if_neg Bool.false_ne_true]

/-- Models `fetch_page` only appends to the queue, and what it appends does not
depend on the incoming queue. -/
theorem fetchPage_frame (web : Web) (cfg : MirrorConfig) (vis : List (String × Nat))
    (navs pages : List String) (X q : List (String × Nat)) (u : String) (d : Nat) :
    fetchPage web cfg ⟨vis, navs, X ++ q, pages⟩ u d =
      ⟨(fetchPage web cfg ⟨vis, navs, q, pages⟩ u d).visited,
       (fetchPage web cfg ⟨vis, navs, q, pages⟩ u d).navs,
       X ++ (fetchPage web cfg ⟨vis, navs, q, pages⟩ u d).queue,
       (fetchPage web cfg ⟨vis, navs, q, pages⟩ u d).pages⟩ := by
  simp only [fetchPage]
  split
  · rfl
  · split <;> simp

/-! ### `takeBatch` facts -/

theorem takeBatch_sublist (visQ : String → Bool) :
    ∀ (q : List (String × Nat)) (c : Nat),
      List.Sublist ((takeBatch c visQ q).1 ++ (takeBatch c visQ q).2) q := by
  intro q
  induction q with
  | nil => intro c; simp [takeBatch]
  | cons e t ih =>
    intro c
    simp only [takeBatch]
    split
    · simp
    · split
      · exact List.Sublist.cons e (ih c)
      · simpa using List.Sublist.cons₂ e (ih (c - 1))

theorem takeBatch_mem (visQ : String → Bool) :
    ∀ (q : List (String × Nat)) (c : Nat) (e : String × Nat), e ∈ q →
      e ∈ (takeBatch c visQ q).1 ++ (takeBatch c visQ q).2 ∨ visQ e.1 = true := by
  intro q
  induction q with
  | nil => intro c e h; cases h
  | cons a t ih =>
    intro c e he
    simp only [takeBatch]
    split
    · exact Or.inl (by simpa using he)
    · rcases List.mem_cons.mp he with rfl | ht
      · split
        · next hv => exact Or.inr hv
        · exact Or.inl (List.mem_cons_self _ _)
      · split
        · exact ih c e ht
        · rcases ih (c - 1) e ht with hm | hv
          · exact Or.inl (by
              rcases List.mem_append.mp hm with h1 | h2
              · exact List.mem_append.mpr (Or.inl (List.mem_cons_of_mem _ h1))
              · exact List.mem_append.mpr (Or.inr h2))
          · exact Or.inr hv

/-- An empty batch from a nonempty queue means either `c = 0` or every queue
entry was already visited (and then the remainder is empty). -/
theorem takeBatch_nil (visQ : String → Bool) :
    ∀ (q : List (String × Nat)) (c : Nat), (takeBatch c visQ q).1 = [] →
      (c = 0 ∧ (takeBatch c visQ q).2 = q) ∨
      ((takeBatch c visQ q).2 = [] ∧ ∀ e ∈ q, visQ e.1 = true) := by
  intro q
  induction q with
  | nil => intro c _; right; exact ⟨rfl, by simp⟩
  | cons a t ih =>
    intro c hb
    by_cases hc : c = 0
    · left
      exact ⟨hc, by simp [takeBatch, hc]⟩
    · by_cases hv : visQ a.1 = true
      · have he : takeBatch c visQ (a :: t) = takeBatch c visQ t := by
          simp [takeBatch, hc, hv]
        rw [he] at hb ⊢
        rcases ih c hb with ⟨h0, _⟩ | ⟨hr, hall⟩
        · exact absurd h0 hc
        · right
          refine ⟨hr, ?_⟩
          intro e he2
          rcases List.mem_cons.mp he2 with rfl | ht
          · exact hv
          · exact hall e ht
      · exfalso
        simp [takeBatch, hc, hv] at hb

/-! ### A generic preservation principle for the crawl loop -/

theorem processBatch_pres (web : Web) (cfg : MirrorConfig) (P : CrawlState → Prop)
    (hpop : ∀ vis navs q pages u d, P ⟨vis, navs, (u, d) :: q, pages⟩ →
      P (fetchPage web cfg ⟨vis, navs, q, pages⟩ u d)) :
    ∀ (b : List (String × Nat)) (st : CrawlState),
      P ⟨st.visited, st.navs, b ++ st.queue, st.pages⟩ → P (processBatch web cfg st b) := by
  intro b
  induction b with
  | nil => intro st h; simpa [processBatch] using h
  | cons e b ih =>
    intro st h
    have h2 := hpop st.visited st.navs (b ++ st.queue) st.pages e.1 e.2 h
    rw [fetchPage_frame] at h2
    have h3 : processBatch web cfg st (e :: b) =
        processBatch web cfg (fetchPage web cfg st e.1 e.2) b := rfl
    rw [h3]
    exact ih (fetchPage web cfg st e.1 e.2) h2

theorem crawlLoop_preserve (web : Web) (cfg : MirrorConfig) (P : CrawlState → Prop)
    (hpop : ∀ vis navs q pages u d, P ⟨vis, navs, (u, d) :: q, pages⟩ →
      P (fetchPage web cfg ⟨vis, navs, q, pages⟩ u d))
    (hshrink : ∀ vis navs q pages l, List.Sublist l q →
      (∀ e ∈ q, e ∈ l ∨ ∃ dv, (e.1, dv) ∈ vis) →
      P ⟨vis, navs, q, pages⟩ → P ⟨vis, navs, l, pages⟩) :
    ∀ (fuel : Nat) (st : CrawlState), P st → P (crawlLoop web cfg fuel st).1 := by
  intro fuel
  induction fuel with
  | zero => intro st h; exact h
  | succ n ih =>
    intro st h
    simp only [crawlLoop]
    split
    · exact h
    · have hsub := takeBatch_sublist (visQof st) st.queue cfg.concurrency
      have hmem := takeBatch_mem (visQof st) st.queue cfg.concurrency
      have hmem2 : ∀ e ∈ st.queue,
          e ∈ (takeBatch cfg.concurrency (visQof st) st.queue).1 ++
              (takeBatch cfg.concurrency (visQof st) st.queue).2 ∨
            ∃ dv, (e.1, dv) ∈ st.visited := by
        intro e he
        rcases hmem e he with hm | hv
        · exact Or.inl hm
        · exact Or.inr ((visQof_eq st e.1).mp hv)
      have hvq : P ⟨st.visited, st.navs,
          (takeBatch cfg.concurrency (visQof st) st.queue).1 ++
            (takeBatch cfg.concurrency (visQof st) st.queue).2, st.pages⟩ :=
        hshrink st.visited st.navs st.queue st.pages _ hsub hmem2 h
      split
      · next hb =>
        rw [hb] at hvq
        exact hvq
      · exact ih _ (processBatch_pres web cfg P hpop _ _ hvq)

/-! ### The crawl invariant

The batch loop is FIFO from a single start entry, so queue depths are
non-decreasing and span at most two consecutive levels; visited depths lie
below all queued depths; the start entry and the children of every visited
page are accounted for.  Together these give at-most-one and (on normal
termination) exactly-one `page.goto` per reachable page. -/

structure CrawlInv (web : Web) (cfg : MirrorConfig) (st : CrawlState) : Prop where
  sorted : List.Pairwise (fun x y => x ≤ y) (st.queue.map Prod.snd)
  twoLevel : ∀ e ∈ st.queue, ∀ f ∈ st.queue, e.2 ≤ f.2 + 1
  visLe : ∀ v ∈ st.visited, ∀ e ∈ st.queue, v.2 ≤ e.2
  visMax : ∀ v ∈ st.visited, v.2 ≤ cfg.maxDepth
  startAcc : (startNorm cfg, 0) ∈ st.visited ∨ (startNorm cfg, 0) ∈ st.queue
  childAcc : ∀ v ∈ st.visited, web.nav v.1 = some 200 → v.2 + 1 ≤ cfg.maxDepth →
    ∀ a ∈ scopedAnchors web cfg v.1,
      (∃ da, da ≤ v.2 + 1 ∧ (a, da) ∈ st.visited) ∨
      (∃ e0, e0 ≤ v.2 + 1 ∧ (a, e0) ∈ st.queue)
  qNorm : ∀ e ∈ st.queue, urlNorm e.1 = e.1
  navsEq : st.navs = st.visited.map Prod.fst
  navsNodup : st.navs.Nodup

theorem crawlInv_shrink (web : Web) (cfg : MirrorConfig) (vis : List (String × Nat))
    (navs pages : List String) (q l : List (String × Nat))
    (hsub : List.Sublist l q)
    (hmem : ∀ e ∈ q, e ∈ l ∨ ∃ dv, (e.1, dv) ∈ vis)
    (h : CrawlInv web cfg ⟨vis, navs, q, pages⟩) :
    CrawlInv web cfg ⟨vis, navs, l, pages⟩ := by
  have hsubm : ∀ e ∈ l, e ∈ q := fun e he => hsub.subset he
  refine ⟨?_, ?_, ?_, h.visMax, ?_, ?_, ?_, h.navsEq, h.navsNodup⟩
  · exact h.sorted.sublist (hsub.map Prod.snd)
  · exact fun e he f hf => h.twoLevel e (hsubm e he) f (hsubm f hf)
  · exact fun v hv e he => h.visLe v hv e (hsubm e he)
  · rcases h.startAcc with hs | hs
    · exact Or.inl hs
    · rcases hmem _ hs with hl | ⟨dv, hdv⟩
      · exact Or.inr hl
      · left
        have : dv ≤ 0 := h.visLe (startNorm cfg, dv) hdv (startNorm cfg, 0) hs
        interval_cases dv
        exact hdv
  · intro v hv hnav hdep a ha
    rcases h.childAcc v hv hnav hdep a ha with ⟨da, hda, hmemv⟩ | ⟨e0, he0, hq⟩
    · exact Or.inl ⟨da, hda, hmemv⟩
    · rcases hmem _ hq with hl | ⟨dv, hdv⟩
      · exact Or.inr ⟨e0, he0, hl⟩
      · left
        exact ⟨dv, le_trans (h.visLe (a, dv) hdv (a, e0) hq) he0, hdv⟩
  · exact fun e he => h.qNorm e (hsubm e he)

theorem crawlInv_pop (web : Web) (cfg : MirrorConfig) (vis : List (String × Nat))
    (navs pages : List String) (q : List (String × Nat)) (u : String) (d : Nat)
    (h : CrawlInv web cfg ⟨vis, navs, (u, d) :: q, pages⟩) :
    CrawlInv web cfg (fetchPage web cfg ⟨vis, navs, q, pages⟩ u d) := by
  have hun : urlNorm u = u := h.qNorm (u, d) (List.mem_cons_self _ _)
  have hs0 : List.Pairwise (fun x y => x ≤ y) (d :: q.map Prod.snd) := by
    simpa using h.sorted
  have hheadle : ∀ f ∈ q, d ≤ f.2 := by
    intro f hf
    exact (List.pairwise_cons.mp hs0).1 f.2 (List.mem_map_of_mem Prod.snd hf)
  by_cases hvis : vis.any (fun e => e.1 == urlNorm u) = true
  · -- already visited: the entry is dropped, nothing else changes
    rw [fetchPage_skip (Or.inl hvis)]
    have hex : ∃ dv, (u, dv) ∈ vis := by
      rw [hun] at hvis
      exact (visQof_eq ⟨vis, navs, q, pages⟩ u).mp hvis
    refine crawlInv_shrink web cfg vis navs pages ((u, d) :: q) q
      (List.sublist_cons_self _ _) ?_ h
    intro e he
    rcases List.mem_cons.mp he with rfl | hq
    · exact Or.inr hex
    · exact Or.inl hq
  · have hvisf : vis.any (fun e => e.1 == urlNorm u) = false :=
      Bool.eq_false_iff.mpr hvis
    by_cases hdep : d ≤ cfg.maxDepth
    · -- fresh and in depth: the page is navigated
      have hnotmem : ∀ dv, (u, dv) ∉ vis := by
        intro dv hmem
        apply hvis
        rw [hun]
        exact (visQof_eq ⟨vis, navs, q, pages⟩ u).mpr ⟨dv, hmem⟩
      have hnavsEq : navs = vis.map Prod.fst := h.navsEq
      have hfreshnav : u ∉ navs := by
        rw [hnavsEq]
        intro hmem
        rcases List.mem_map.mp hmem with ⟨⟨a, b⟩, hab, hfst⟩
        exact hnotmem b (by simpa [← hfst] using hab)
      by_cases hnav : web.nav (urlNorm u) = some 200
      · rw [fetchPage_visit_ok hvisf hdep hnav]
        rw [hun] at hnav ⊢
        set ch := (scopedAnchors web cfg u).map (fun a => (a, d + 1)) with hch
        have hchd : ∀ e ∈ ch, e.2 = d + 1 := by
          intro e he
          rcases List.mem_map.mp he with ⟨a, _, rfl⟩
          rfl
        have hql : ∀ f ∈ q, f.2 ≤ d + 1 := by
          intro f hf
          exact h.twoLevel f (List.mem_cons_of_mem _ hf) (u, d) (List.mem_cons_self _ _)
        refine ⟨?_, ?_, ?_, ?_, ?_, ?_, ?_, ?_, ?_⟩
        · -- sorted
          rw [List.map_append]
          refine (List.pairwise_append).mpr ⟨?_, ?_, ?_⟩
          · exact h.sorted.sublist ((List.sublist_cons_self (u, d) q).map Prod.snd)
          · refine List.pairwise_of_forall_mem_list ?_
            intro x hx y hy
            rcases List.mem_map.mp hx with ⟨e, he, rfl⟩
            rcases List.mem_map.mp hy with ⟨f, hf, rfl⟩
            rw [hchd e he, hchd f hf]
          · intro x hx y hy
            rcases List.mem_map.mp hx with ⟨e, he, rfl⟩
            rcases List.mem_map.mp hy with ⟨f, hf, rfl⟩
            rw [hchd f hf]
            exact hql e he
        · -- two levels
          intro e he f hf
          rcases List.mem_append.mp he with he | he <;>
            rcases List.mem_append.mp hf with hf | hf
          · exact h.twoLevel e (List.mem_cons_of_mem _ he) f (List.mem_cons_of_mem _ hf)
          · rw [hchd f hf]; exact le_trans (hql e he) (Nat.le_succ _)
          · rw [hchd e he]; exact Nat.succ_le_succ (hheadle f hf)
          · rw [hchd e he, hchd f hf]; exact Nat.le_succ _
        · -- visited depths below queued depths
          intro v hv e he
          rcases List.mem_append.mp hv with hv | hv
          · rcases List.mem_append.mp he with he | he
            · exact h.visLe v hv e (List.mem_cons_of_mem _ he)
            · rw [hchd e he]
              exact le_trans (h.visLe v hv (u, d) (List.mem_cons_self _ _)) (Nat.le_succ _)
          · have hvd : v = (u, d) := by simpa using hv
            subst hvd
            rcases List.mem_append.mp he with he | he
            · exact hheadle e he
            · rw [hchd e he]; exact Nat.le_succ _
        · -- visited depths within the bound
          intro v hv
          rcases List.mem_append.mp hv with hv | hv
          · exact h.visMax v hv
          · have hvd : v = (u, d) := by simpa using hv
            subst hvd
            exact hdep
        · -- start accounted for
          rcases h.startAcc with hs | hs
          · exact Or.inl (List.mem_append_left _ hs)
          · rcases List.mem_cons.mp hs with heq | hq
            · left
              have h1 : u = startNorm cfg := congrArg Prod.fst heq.symm
              have h2 : d = 0 := congrArg Prod.snd heq.symm
              subst h1
              subst h2
              exact List.mem_append_right _ (List.mem_singleton_self _)
            · exact Or.inr (List.mem_append_left _ hq)
        · -- children accounted for
          intro v hv hnavv hdepv a ha
          rcases List.mem_append.mp hv with hv | hv
          · rcases h.childAcc v hv hnavv hdepv a ha with ⟨da, hda, hm⟩ | ⟨e0, he0, hq⟩
            · exact Or.inl ⟨da, hda, List.mem_append_left _ hm⟩
            · rcases List.mem_cons.mp hq with heq | hq2
              · left
                have h1 : a = u := congrArg Prod.fst heq
                have h2 : e0 = d := congrArg Prod.snd heq
                subst h1
                refine ⟨d, ?_, List.mem_append_right _ (List.mem_singleton_self _)⟩
                rw [← h2]
                exact he0
              · exact Or.inr ⟨e0, he0, List.mem_append_left _ hq2⟩
          · have hvd : v = (u, d) := by simpa using hv
            subst hvd
            right
            refine ⟨d + 1, le_refl _, List.mem_append_right _ ?_⟩
            exact List.mem_map_of_mem (fun a => (a, d + 1)) ha
        · -- queue entries normalized
          intro e he
          rcases List.mem_append.mp he with he | he
          · exact h.qNorm e (List.mem_cons_of_mem _ he)
          · rcases List.mem_map.mp he with ⟨a, ha, rfl⟩
            exact scopedAnchors_norm ha
        · -- navs mirror visited
          rw [hnavsEq, List.map_append]
          rfl
        · -- navs are distinct
          rw [List.nodup_append]
          exact ⟨h.navsNodup, List.nodup_singleton _, by
            intro x hx hx2
            rw [List.mem_singleton.mp hx2] at hx
            exact hfreshnav hx⟩
      · rw [fetchPage_visit_fail hvisf hdep hnav]
        rw [hun] at hnav ⊢
        refine ⟨?_, ?_, ?_, ?_, ?_, ?_, ?_, ?_, ?_⟩
        · exact h.sorted.sublist ((List.sublist_cons_self (u, d) q).map Prod.snd)
        · exact fun e he f hf =>
            h.twoLevel e (List.mem_cons_of_mem _ he) f (List.mem_cons_of_mem _ hf)
        · intro v hv e he
          rcases List.mem_append.mp hv with hv | hv
          · exact h.visLe v hv e (List.mem_cons_of_mem _ he)
          · have hvd : v = (u, d) := by simpa using hv
            subst hvd
            exact hheadle e he
        · intro v hv
          rcases List.mem_append.mp hv with hv | hv
          · exact h.visMax v hv
          · have hvd : v = (u, d) := by simpa using hv
            subst hvd
            exact hdep
        · rcases h.startAcc with hs | hs
          · exact Or.inl (List.mem_append_left _ hs)
          · rcases List.mem_cons.mp hs with heq | hq
            · left
              have h1 : u = startNorm cfg := congrArg Prod.fst heq.symm
              have h2 : d = 0 := congrArg Prod.snd heq.symm
              subst h1
              subst h2
              exact List.mem_append_right _ (List.mem_singleton_self _)
            · exact Or.inr hq
        · intro v hv hnavv hdepv a ha
          rcases List.mem_append.mp hv with hv | hv
          · rcases h.childAcc v hv hnavv hdepv a ha with ⟨da, hda, hm⟩ | ⟨e0, he0, hq⟩
            · exact Or.inl ⟨da, hda, List.mem_append_left _ hm⟩
            · rcases List.mem_cons.mp hq with heq | hq2
              · left
                have h1 : a = u := congrArg Prod.fst heq
                have h2 : e0 = d := congrArg Prod.snd heq
                subst h1
                refine ⟨d, ?_, List.mem_append_right _ (List.mem_singleton_self _)⟩
                rw [← h2]
                exact he0
              · exact Or.inr ⟨e0, he0, hq2⟩
          · have hvd : v = (u, d) := by simpa using hv
            subst hvd
            exact absurd hnavv hnav
        · exact fun e he => h.qNorm e (List.mem_cons_of_mem _ he)
        · rw [hnavsEq, List.map_append]
          rfl
        · rw [List.nodup_append]
          exact ⟨h.navsNodup, List.nodup_singleton _, by
            intro x hx hx2
            rw [List.mem_singleton.mp hx2] at hx
            exact hfreshnav hx⟩
    · -- too deep: the entry is dropped without being fetched
      have hgt : d > cfg.maxDepth := Nat.lt_of_not_le hdep
      rw [fetchPage_skip (Or.inr hgt)]
      refine ⟨?_, ?_, ?_, h.visMax, ?_, ?_, ?_, h.navsEq, h.navsNodup⟩
      · exact h.sorted.sublist ((List.sublist_cons_self (u, d) q).map Prod.snd)
      · exact fun e he f hf =>
          h.twoLevel e (List.mem_cons_of_mem _ he) f (List.mem_cons_of_mem _ hf)
      · exact fun v hv e he => h.visLe v hv e (List.mem_cons_of_mem _ he)
      · rcases h.startAcc with hs | hs
        · exact Or.inl hs
        · rcases List.mem_cons.mp hs with heq | hq
          · exfalso
            have h2 : d = 0 := congrArg Prod.snd heq.symm
            subst h2
            exact Nat.not_lt_zero _ (Nat.lt_of_lt_of_le hgt (Nat.zero_le _))
          · exact Or.inr hq
      · intro v hv hnavv hdepv a ha
        rcases h.childAcc v hv hnavv hdepv a ha with ⟨da, hda, hm⟩ | ⟨e0, he0, hq⟩
        · exact Or.inl ⟨da, hda, hm⟩
        · rcases List.mem_cons.mp hq with heq | hq2
          · exfalso
            have h2 : e0 = d := congrArg Prod.snd heq
            subst h2
            exact Nat.not_le.mpr hgt (le_trans he0 (le_trans hdepv (le_refl _)))
          · exact Or.inr ⟨e0, he0, hq2⟩
      · exact fun e he => h.qNorm e (List.mem_cons_of_mem _ he)

theorem crawlInv_init (web : Web) (cfg : MirrorConfig) : CrawlInv web cfg (initState cfg) := by
  refine ⟨?_, ?_, ?_, ?_, ?_, ?_, ?_, rfl, List.nodup_nil⟩
  · simp [initState]
  · intro e he f hf
    simp only [initState, List.mem_singleton] at he hf
    subst he; subst hf; simp
  · intro v hv; cases hv
  · intro v hv; cases hv
  · exact Or.inr (List.mem_singleton_self _)
  · intro v hv; cases hv
  · intro e he
    simp only [initState, List.mem_singleton] at he
    subst he
    exact startNorm_norm cfg

/-- The crawl invariant is preserved by the whole loop. -/
theorem crawlInv_loop (web : Web) (cfg : MirrorConfig) (fuel : Nat) :
    CrawlInv web cfg (crawlLoop web cfg fuel (initState cfg)).1 :=
  crawlLoop_preserve web cfg (CrawlInv web cfg)
    (fun vis navs q pages u d h => crawlInv_pop web cfg vis navs pages q u d h)
    (fun vis navs q pages l hsub hmem h => crawlInv_shrink web cfg vis navs pages q l hsub hmem h)
    fuel (initState cfg) (crawlInv_init web cfg)

/-- On an empty queue, the invariant forces every page reachable within the
depth bound to have been visited, at a depth at most its reachable depth. -/
theorem crawlInv_complete (web : Web) (cfg : MirrorConfig) (st : CrawlState)
    (hinv : CrawlInv web cfg st) (hq : st.queue = []) :
    ∀ u d, Reach web cfg u d → d ≤ cfg.maxDepth → ∃ dv, dv ≤ d ∧ (u, dv) ∈ st.visited := by
  intro u d hreach
  induction hreach with
  | start =>
    intro _
    rcases hinv.startAcc with hs | hs
    · exact ⟨0, le_refl _, hs⟩
    · rw [hq] at hs
      cases hs
  | step hr hnav ha ih =>
    intro hle
    obtain ⟨dv, hdv, hmem⟩ := ih (le_trans (Nat.le_succ _) hle)
    have hdep : dv + 1 ≤ cfg.maxDepth := le_trans (Nat.succ_le_succ hdv) hle
    rcases hinv.childAcc _ hmem hnav hdep _ ha with ⟨da, hda, hm⟩ | ⟨e0, _, hqm⟩
    · exact ⟨da, le_trans hda (Nat.succ_le_succ hdv), hm⟩
    · rw [hq] at hqm
      cases hqm

/-- When the loop reports normal termination (and the batch size is positive,
as the configuration surface requires), its final queue is empty. -/
theorem crawlLoop_final_queue (web : Web) (cfg : MirrorConfig) (hC : 1 ≤ cfg.concurrency) :
    ∀ (fuel : Nat) (st : CrawlState), (crawlLoop web cfg fuel st).2 = true →
      (crawlLoop web cfg fuel st).1.queue = [] := by
  intro fuel
  induction fuel with
  | zero =>
    intro st h
    simp [crawlLoop] at h
  | succ n ih =>
    intro st h
    by_cases hq : st.queue = []
    · simp [crawlLoop, hq]
    · by_cases hb : (takeBatch cfg.concurrency (visQof st) st.queue).1 = []
      · rcases takeBatch_nil (visQof st) st.queue cfg.concurrency hb with ⟨h0, _⟩ | ⟨hr, _⟩
        · omega
        · simp [crawlLoop, hq, hb, hr]
      · have hrec : crawlLoop web cfg (n + 1) st =
            crawlLoop web cfg n (processBatch web cfg
              { st with queue := (takeBatch cfg.concurrency (visQof st) st.queue).2 }
              (takeBatch cfg.concurrency (visQof st) st.queue).1) := by
          simp [crawlLoop, hq, hb]
        rw [hrec] at h ⊢
        exact ih _ h

/-! ## Claim C3: at-most-one navigate per page, exactly one within the bound -/

/-- C3:  For every page URL, `page.goto` is invoked at most once per run
(the `visited_pages` check-and-add before the first await point dedups even
same-batch duplicates), and — when the loop terminates normally and the batch
size is positive — exactly once for every page reachable within the depth
bound. -/
theorem c3_at_most_one_fetch (web : Web) (cfg : MirrorConfig) (fuel : Nat) :
    (∀ u, ((crawlLoop web cfg fuel (initState cfg)).1.navs.count u) ≤ 1) ∧
    (1 ≤ cfg.concurrency → (crawlLoop web cfg fuel (initState cfg)).2 = true →
      ∀ u d, Reach web cfg u d → d ≤ cfg.maxDepth →
        (crawlLoop web cfg fuel (initState cfg)).1.navs.count u = 1) := by
  have hinv := crawlInv_loop web cfg fuel
  constructor
  · exact fun u => List.nodup_iff_count_le_one.mp hinv.navsNodup u
  · intro hC hfin u d hreach hle
    have hq := crawlLoop_final_queue web cfg hC fuel (initState cfg) hfin
    obtain ⟨dv, _, hmem⟩ := crawlInv_complete web cfg _ hinv hq u d hreach hle
    have hmemnav : u ∈ (crawlLoop web cfg fuel (initState cfg)).1.navs := by
      rw [hinv.navsEq]
      exact List.mem_map_of_mem Prod.fst hmem
    exact Nat.le_antisymm (List.nodup_iff_count_le_one.mp hinv.navsNodup u)
      (List.count_pos_iff.mpr hmemnav)

/-- Concrete run for C3: a page discovered through two different anchors in
the same batch is navigated exactly once, and the depth-2 page exactly once. -/
theorem c3_witness :
    (1 : Nat) ≤ (1 : Nat) ∧
    ((crawlLoop ⟨fun _ => some 200,
        fun u => if u = "http://s/" then ["http://s/p", "http://s/p#dup", "http://s/q"] else []⟩
      { startUrl := "http://s/", maxDepth := 1, concurrency := 4 } 5
      (initState { startUrl := "http://s/", maxDepth := 1, concurrency := 4 })).1.navs.count
        "http://s/p" = 1) := by
  refine ⟨le_refl 1, ?_⟩
  exact (c3_at_most_one_fetch ⟨fun _ => some 200,
      fun u => if u = "http://s/" then ["http://s/p", "http://s/p#dup", "http://s/q"] else []⟩
      { startUrl := "http://s/", maxDepth := 1, concurrency := 4 } 5).2
    (by decide) (by decide) "http://s/p" 1
    (Reach.step Reach.start (by decide) (by decide)) (by decide)

/-! ## Claim C4: asset capture may cross hosts, page traversal never does -/

/-- C4:  With `all_host_assets` set, a 200 non-HTML response is saved even
when its host is outside the allow set; and every URL ever passed to
`page.goto` is the start URL or has the start host — anchors on other hosts
are never dispatched as pages, whatever the flag says. -/
theorem c4_host_asymmetry (cfg : MirrorConfig) (outDir : FsPath) (sh : Option String)
    (allowed : List String) (hash : String → String) (st : AssetState) (r : Response)
    (web : Web) (fuel : Nat)
    (hA : cfg.allHostAssets = true) (h200 : r.status = 200)
    (hct : substrOf "text/html" r.contentType = false)
    (hnew : lookupA (urlNorm r.url) st.saved = none) (hw : r.writeOk = true) :
    lookupA (urlNorm r.url) (handleResponse cfg outDir sh allowed hash st r).saved ≠ none ∧
    (∀ u ∈ (crawlLoop web cfg fuel (initState cfg)).1.navs,
      u = startNorm cfg ∨ hostname u = startHostOf cfg) := by
  constructor
  · simp only [handleResponse, h200, hct, hA, hnew, hw, Bool.or_true, ne_eq]
    simp [lookupA]
  · have hpres := crawlLoop_preserve web cfg
      (fun st => (∀ u ∈ st.navs, u = startNorm cfg ∨ hostname u = startHostOf cfg) ∧
        (∀ e ∈ st.queue, e.1 = startNorm cfg ∨ hostname e.1 = startHostOf cfg) ∧
        (∀ e ∈ st.queue, urlNorm e.1 = e.1))
      ?hpop ?hshrink fuel (initState cfg) ?hinit
    · exact hpres.1
    case hinit =>
      refine ⟨fun u hu => absurd hu (List.not_mem_nil u), ?_, ?_⟩
      · intro e he
        simp only [initState, List.mem_singleton] at he
        subst he
        exact Or.inl rfl
      · intro e he
        simp only [initState, List.mem_singleton] at he
        subst he
        exact startNorm_norm cfg
    case hshrink =>
      intro vis navs q pages l hsub _ h
      exact ⟨h.1, fun e he => h.2.1 e (hsub.subset he),
        fun e he => h.2.2 e (hsub.subset he)⟩
    case hpop =>
      intro vis navs q pages u d h
      by_cases hvis : vis.any (fun e => e.1 == urlNorm u) = true
      · rw [fetchPage_skip (Or.inl hvis)]
        exact ⟨h.1, fun e he => h.2.1 e (List.mem_cons_of_mem _ he),
          fun e he => h.2.2 e (List.mem_cons_of_mem _ he)⟩
      · have hvisf := Bool.eq_false_iff.mpr hvis
        by_cases hdep : d ≤ cfg.maxDepth
        · have hun : urlNorm u = u := h.2.2 (u, d) (List.mem_cons_self _ _)
          have hhead : u = startNorm cfg ∨ hostname u = startHostOf cfg :=
            h.2.1 (u, d) (List.mem_cons_self _ _)
          have hnavs : ∀ v ∈ navs ++ [urlNorm u],
              v = startNorm cfg ∨ hostname v = startHostOf cfg := by
            intro v hv
            rcases List.mem_append.mp hv with hv | hv
            · exact h.1 v hv
            · rw [List.mem_singleton.mp hv, hun]
              exact hhead
          by_cases hnav : web.nav (urlNorm u) = some 200
          · rw [fetchPage_visit_ok hvisf hdep hnav]
            refine ⟨hnavs, ?_, ?_⟩
            · intro e he
              rcases List.mem_append.mp he with he | he
              · exact h.2.1 e (List.mem_cons_of_mem _ he)
              · rcases List.mem_map.mp he with ⟨a, ha, rfl⟩
                right
                have := List.of_mem_filter ha
                revert this
                cases hh : hostname a with
                | none => simp
                | some hv =>
                  cases hsh : startHostOf cfg with
                  | none => simp
                  | some shv =>
                    intro hb
                    simpa using beq_iff_eq.mp (by simpa using hb)
            · intro e he
              rcases List.mem_append.mp he with he | he
              · exact h.2.2 e (List.mem_cons_of_mem _ he)
              · rcases List.mem_map.mp he with ⟨a, ha, rfl⟩
                exact scopedAnchors_norm ha
          · rw [fetchPage_visit_fail hvisf hdep hnav]
            exact ⟨hnavs, fun e he => h.2.1 e (List.mem_cons_of_mem _ he),
              fun e he => h.2.2 e (List.mem_cons_of_mem _ he)⟩
        · rw [fetchPage_skip (Or.inr (Nat.lt_of_not_le hdep))]
          exact ⟨h.1, fun e he => h.2.1 e (List.mem_cons_of_mem _ he),
            fun e he => h.2.2 e (List.mem_cons_of_mem _ he)⟩

/-- Concrete run for C4: with `all_host_assets`, an off-allow-list image from
`cdn.example` is saved, and the crawl of a page linking to `cdn.example`
never navigates there. -/
theorem c4_witness :
    lookupA "http://cdn.example/i.png"
      (handleResponse { startUrl := "http://s/", allHostAssets := true } ["out"] (some "s") ["s"]
        (fun _ => "h")
        ⟨[], [], []⟩ ⟨"http://cdn.example/i.png", 200, "image/png", true⟩).saved ≠ none ∧
    ("http://s/" ∈ (crawlLoop
        ⟨fun _ => some 200,
         fun u => if u = "http://s/" then ["http://cdn.example/page.html"] else []⟩
        { startUrl := "http://s/", allHostAssets := true } 5
        (initState { startUrl := "http://s/", allHostAssets := true })).1.navs) ∧
    ("http://s/" = startNorm { startUrl := "http://s/", allHostAssets := true } ∨
      hostname "http://s/" = startHostOf { startUrl := "http://s/", allHostAssets := true }) := by
  refine ⟨?_, by decide, ?_⟩
  · exact (c4_host_asymmetry { startUrl := "http://s/", allHostAssets := true } ["out"]
      (some "s") ["s"] (fun _ => "h") ⟨[], [], []⟩
      ⟨"http://cdn.example/i.png", 200, "image/png", true⟩
      ⟨fun _ => some 200, fun _ => []⟩ 0 rfl rfl (by decide) (by decide) rfl).1
  · exact (c4_host_asymmetry { startUrl := "http://s/", allHostAssets := true } ["out"]
      (some "s") ["s"] (fun _ => "h") ⟨[], [], []⟩
      ⟨"http://cdn.example/i.png", 200, "image/png", true⟩
      ⟨fun _ => some 200,
       fun u => if u = "http://s/" then ["http://cdn.example/page.html"] else []⟩ 5
      rfl rfl (by decide) (by decide) rfl).2 "http://s/" (by decide)

/-! ## Claim C5: which anchors enter the frontier -/

/-- A web whose start page (on `s.com`) links to a page on the allow-listed
host `a.com`.  Used to separate the allow set from the traversal scope. -/
def webAllowList : Web :=
  ⟨fun _ => some 200, fun u => if u = "http://s.com/" then ["http://a.com/p"] else []⟩

/-- C5, counterexample:  An anchor on `a.com`, a member of the configured
allow set (and not the start host `s.com`), is *not* enqueued as a page: the
enqueue filter is `host == start_host` only, so the claim that allow-listed
hosts are in scope for page traversal fails on the code. -/
theorem c5_counterexample :
    "a.com" ∈ allowedHosts { startUrl := "http://s.com/", extraAllowedHosts := ["a.com"] } ∧
    hostname "http://a.com/p" = some "a.com" ∧
    webAllowList.nav "http://s.com/" = some 200 ∧
    "http://a.com/p" ∈ webAllowList.anchors "http://s.com/" ∧
    (fetchPage webAllowList { startUrl := "http://s.com/", extraAllowedHosts := ["a.com"] }
      ⟨[], [], [], []⟩ "http://s.com/" 0).queue = [] := by
  refine ⟨by decide, by decide, rfl, by decide, by decide⟩

/-- C5, amended:  Every entry `fetch_page` adds to the frontier has a
resolvable host equal to the start host; membership in `allow_hosts` plays no
role in page traversal (it only widens asset capture). -/
theorem c5_only_start_host_enqueued (web : Web) (cfg : MirrorConfig) (st : CrawlState)
    (u : String) (d : Nat) :
    ∀ e ∈ (fetchPage web cfg st u d).queue,
      e ∈ st.queue ∨ ((hostname e.1).isSome ∧ hostname e.1 = startHostOf cfg) := by
  intro e he
  by_cases hvis : st.visited.any (fun x => x.1 == urlNorm u) = true
  · rw [fetchPage_skip (Or.inl hvis)] at he
    exact Or.inl he
  · have hvisf := Bool.eq_false_iff.mpr hvis
    by_cases hdep : d ≤ cfg.maxDepth
    · by_cases hnav : web.nav (urlNorm u) = some 200
      · rw [fetchPage_visit_ok hvisf hdep hnav] at he
        rcases List.mem_append.mp he with he | he
        · exact Or.inl he
        · rcases List.mem_map.mp he with ⟨a, ha, rfl⟩
          right
          have hf := List.of_mem_filter ha
          revert hf
          cases hh : hostname a with
          | none => simp
          | some hv =>
            cases hsh : startHostOf cfg with
            | none => simp
            | some shv =>
              intro hb
              have : hv = shv := beq_iff_eq.mp (by simpa using hb)
              simp [this]
      · rw [fetchPage_visit_fail hvisf hdep hnav] at he
        exact Or.inl he
    · rw [fetchPage_skip (Or.inr (Nat.lt_of_not_le hdep))] at he
      exact Or.inl he

/-- Concrete instance for the amended C5: the one anchor the start page
enqueues carries the start host. -/
theorem c5_witness :
    (("http://s.com/p", 1) ∈ (fetchPage
        ⟨fun _ => some 200, fun u => if u = "http://s.com/" then ["http://s.com/p"] else []⟩
        { startUrl := "http://s.com/", extraAllowedHosts := ["a.com"] }
        ⟨[], [], [], []⟩ "http://s.com/" 0).queue) ∧
    ((("http://s.com/p", 1) : String × Nat) ∈ ([] : List (String × Nat)) ∨
      ((hostname "http://s.com/p").isSome ∧
        hostname "http://s.com/p" =
          startHostOf { startUrl := "http://s.com/", extraAllowedHosts := ["a.com"] })) := by
  refine ⟨by decide, ?_⟩
  exact c5_only_start_host_enqueued
    ⟨fun _ => some 200, fun u => if u = "http://s.com/" then ["http://s.com/p"] else []⟩
    { startUrl := "http://s.com/", extraAllowedHosts := ["a.com"] }
    ⟨[], [], [], []⟩ "http://s.com/" 0 ("http://s.com/p", 1) (by decide)

/-! ## Claim C7: the depth bound -/

/-- C7:  With `max_depth = 0` only the start URL is ever navigated, no
matter what the pages link to; and in general an entry deeper than
`max_depth` is dropped by `fetch_page` without any state change. -/
theorem c7_depth_bound (web : Web) (cfg : MirrorConfig) (fuel : Nat)
    (hM : cfg.maxDepth = 0) :
    (∀ u ∈ (crawlLoop web cfg fuel (initState cfg)).1.navs, u = startNorm cfg) ∧
    (∀ (st : CrawlState) (u : String) (d : Nat), d > cfg.maxDepth →
      fetchPage web cfg st u d = st) := by
  constructor
  · have hpres := crawlLoop_preserve web cfg
      (fun st => (∀ u ∈ st.navs, u = startNorm cfg) ∧
        (∀ e ∈ st.queue, e.2 = 0 → e.1 = startNorm cfg) ∧
        (∀ e ∈ st.queue, urlNorm e.1 = e.1))
      ?hpop ?hshrink fuel (initState cfg) ?hinit
    · exact hpres.1
    case hinit =>
      refine ⟨fun u hu => absurd hu (List.not_mem_nil u), ?_, ?_⟩
      · intro e he
        simp only [initState, List.mem_singleton] at he
        subst he
        exact fun _ => rfl
      · intro e he
        simp only [initState, List.mem_singleton] at he
        subst he
        exact startNorm_norm cfg
    case hshrink =>
      intro vis navs q pages l hsub _ h
      exact ⟨h.1, fun e he => h.2.1 e (hsub.subset he),
        fun e he => h.2.2 e (hsub.subset he)⟩
    case hpop =>
      intro vis navs q pages u d h
      by_cases hvis : vis.any (fun e => e.1 == urlNorm u) = true
      · rw [fetchPage_skip (Or.inl hvis)]
        exact ⟨h.1, fun e he => h.2.1 e (List.mem_cons_of_mem _ he),
          fun e he => h.2.2 e (List.mem_cons_of_mem _ he)⟩
      · have hvisf := Bool.eq_false_iff.mpr hvis
        by_cases hdep : d ≤ cfg.maxDepth
        · have hd0 : d = 0 := Nat.le_antisymm (hM ▸ hdep) (Nat.zero_le d)
          have hun : urlNorm u = u := h.2.2 (u, d) (List.mem_cons_self _ _)
          have hus : u = startNorm cfg := h.2.1 (u, d) (List.mem_cons_self _ _) hd0
          have hnavs : ∀ v ∈ navs ++ [urlNorm u], v = startNorm cfg := by
            intro v hv
            rcases List.mem_append.mp hv with hv | hv
            · exact h.1 v hv
            · rw [List.mem_singleton.mp hv, hun]
              exact hus
          by_cases hnav : web.nav (urlNorm u) = some 200
          · rw [fetchPage_visit_ok hvisf hdep hnav]
            refine ⟨hnavs, ?_, ?_⟩
            · intro e he
              rcases List.mem_append.mp he with he | he
              · exact h.2.1 e (List.mem_cons_of_mem _ he)
              · rcases List.mem_map.mp he with ⟨a, _, rfl⟩
                intro hcontra
                exact absurd hcontra (Nat.succ_ne_zero d)
            · intro e he
              rcases List.mem_append.mp he with he | he
              · exact h.2.2 e (List.mem_cons_of_mem _ he)
              · rcases List.mem_map.mp he with ⟨a, ha, rfl⟩
                exact scopedAnchors_norm ha
          · rw [fetchPage_visit_fail hvisf hdep hnav]
            exact ⟨hnavs, fun e he => h.2.1 e (List.mem_cons_of_mem _ he),
              fun e he => h.2.2 e (List.mem_cons_of_mem _ he)⟩
        · rw [fetchPage_skip (Or.inr (Nat.lt_of_not_le hdep))]
          exact ⟨h.1, fun e he => h.2.1 e (List.mem_cons_of_mem _ he),
            fun e he => h.2.2 e (List.mem_cons_of_mem _ he)⟩
  · intro st u d hd
    exact fetchPage_skip (Or.inr hd)

/-- Concrete run for C7: a start page with three links, `max_depth = 0` — the
only navigated page is the start URL, and a depth-1 entry is dropped without
any state change. -/
theorem c7_witness :
    ("http://s/" ∈ (crawlLoop
        ⟨fun _ => some 200,
         fun _ => ["http://s/a", "http://s/b", "http://s/c"]⟩
        { startUrl := "http://s/", maxDepth := 0 } 5
        (initState { startUrl := "http://s/", maxDepth := 0 })).1.navs) ∧
    ("http://s/" = startNorm { startUrl := "http://s/", maxDepth := 0 }) ∧
    (fetchPage ⟨fun _ => some 200, fun _ => ["http://s/a", "http://s/b", "http://s/c"]⟩
        { startUrl := "http://s/", maxDepth := 0 } ⟨[], [], [], []⟩ "http://s/x" 1 =
      ⟨[], [], [], []⟩) := by
  refine ⟨by decide, ?_, ?_⟩
  · exact (c7_depth_bound
      ⟨fun _ => some 200, fun _ => ["http://s/a", "http://s/b", "http://s/c"]⟩
      { startUrl := "http://s/", maxDepth := 0 } 5 rfl).1 "http://s/" (by decide)
  · exact (c7_depth_bound
      ⟨fun _ => some 200, fun _ => ["http://s/a", "http://s/b", "http://s/c"]⟩
      { startUrl := "http://s/", maxDepth := 0 } 5 rfl).2 ⟨[], [], [], []⟩ "http://s/x" 1
      (by decide)

/-! ## Claim C8: failure isolation -/

/-- A web whose start page (status 200) links to two pages, one of which
raises on `page.goto` (e.g. a navigation timeout). -/
def webTimeout : WebE :=
  ⟨⟨fun _ => some 200,
    fun u => if u = "http://s/" then ["http://s/slow", "http://s/ok"] else []⟩,
   fun u => u == "http://s/slow"⟩

/-- C8, code bug:  `fetch_page` wraps navigation in `try`/`finally` with
no `except` clause, so an exception from `page.goto` (navigation error or
timeout) propagates through `asyncio.gather` and aborts the whole run: here
the start page links to a page whose `goto` raises and the crawl returns an
error instead of a partial mirror — although the same crawl, minus the
exception, terminates and navigates all three pages.  (The asset-side
`WriteFailure` *is* non-fatal as claimed: `handle_response`'s `except: pass`
leaves the state unchanged on a failed body fetch or write.) -/
theorem c8_fetch_failure_aborts_run :
    (crawlLoopE webTimeout { startUrl := "http://s/" } 5
      (initState { startUrl := "http://s/" }) = Except.error ()) ∧
    ((crawlLoop webTimeout.toWeb { startUrl := "http://s/" } 5
      (initState { startUrl := "http://s/" })).1.navs =
        ["http://s/", "http://s/slow", "http://s/ok"]) ∧
    (handleResponse { startUrl := "http://s/" } ["out"] (some "s") ["s"] (fun _ => "h")
      ⟨[], [], []⟩ ⟨"http://s/a.png", 200, "image/png", false⟩ = ⟨[], [], []⟩) := by
  refine ⟨rfl, by decide, rfl⟩

/-! ## Claim C10: artifacts originate from status-200 responses -/

theorem insertSorted_mem (a u : String) (l : List String) :
    u ∈ insertSorted a l ↔ u = a ∨ u ∈ l := by
  induction l with
  | nil => simp [insertSorted]
  | cons b t ih =>
    simp only [insertSorted]
    split
    · simp
    · rw [List.mem_cons, ih, List.mem_cons]
      tauto

theorem indexEntries_mem (u : String) (l : List String) :
    u ∈ indexEntries l ↔ u ∈ l := by
  induction l with
  | nil => simp [indexEntries]
  | cons b t ih =>
    simp only [indexEntries, List.foldr_cons] at ih ⊢
    rw [insertSorted_mem, ih, List.mem_cons]

/-- C10:  `handle_response` stores nothing for a non-200 status and
nothing whose content type contains `text/html`; every page the crawl saves
(and hence every index entry, the index enumerating exactly the saved pages)
had a status-200 navigation. -/
theorem c10_status_gate (cfg : MirrorConfig) (outDir : FsPath) (sh : Option String)
    (allowed : List String) (hash : String → String) (st : AssetState) (r : Response)
    (web : Web) (fuel : Nat) :
    (r.status ≠ 200 → handleResponse cfg outDir sh allowed hash st r = st) ∧
    (substrOf "text/html" r.contentType = true →
      handleResponse cfg outDir sh allowed hash st r = st) ∧
    (∀ u ∈ (crawlLoop web cfg fuel (initState cfg)).1.pages, web.nav u = some 200) ∧
    (∀ u, u ∈ indexEntries (crawlLoop web cfg fuel (initState cfg)).1.pages ↔
      u ∈ (crawlLoop web cfg fuel (initState cfg)).1.pages) := by
  refine ⟨?_, ?_, ?_, fun u => indexEntries_mem u _⟩
  · intro h
    simp [handleResponse, h]
  · intro h
    simp [handleResponse, h]
  · have hpres := crawlLoop_preserve web cfg
      (fun st => ∀ u ∈ st.pages, web.nav u = some 200)
      ?hpop ?hshrink fuel (initState cfg) ?hinit
    · exact hpres
    case hinit => exact fun u hu => absurd hu (List.not_mem_nil u)
    case hshrink => exact fun vis navs q pages l _ _ h => h
    case hpop =>
      intro vis navs q pages u d h
      by_cases hvis : vis.any (fun e => e.1 == urlNorm u) = true
      · rw [fetchPage_skip (Or.inl hvis)]
        exact h
      · have hvisf := Bool.eq_false_iff.mpr hvis
        by_cases hdep : d ≤ cfg.maxDepth
        · by_cases hnav : web.nav (urlNorm u) = some 200
          · rw [fetchPage_visit_ok hvisf hdep hnav]
            intro v hv
            rcases List.mem_append.mp hv with hv | hv
            · exact h v hv
            · rw [List.mem_singleton.mp hv]
              exact hnav
          · rw [fetchPage_visit_fail hvisf hdep hnav]
            exact h
        · rw [fetchPage_skip (Or.inr (Nat.lt_of_not_le hdep))]
          exact h

/-- Concrete instance for C10: a 404 response and an HTML-typed response are
both ignored, and the one crawled page in the index had status 200. -/
theorem c10_witness :
    (handleResponse { startUrl := "http://s/" } ["out"] (some "s") ["s"] (fun _ => "h")
        ⟨[], [], []⟩ ⟨"http://s/missing.png", 404, "image/png", true⟩ = ⟨[], [], []⟩) ∧
    (handleResponse { startUrl := "http://s/" } ["out"] (some "s") ["s"] (fun _ => "h")
        ⟨[], [], []⟩ ⟨"http://s/frame", 200, "text/html; charset=utf-8", true⟩ = ⟨[], [], []⟩) ∧
    ("http://s/" ∈ (crawlLoop
        ⟨fun u => if u = "http://s/" then some 200 else some 404, fun _ => []⟩
        { startUrl := "http://s/" } 3
        (initState { startUrl := "http://s/" })).1.pages) ∧
    ((fun v => if v = "http://s/" then some 200 else some 404) "http://s/" =
      some 200) := by
  refine ⟨?_, ?_, by decide, ?_⟩
  · exact (c10_status_gate { startUrl := "http://s/" } ["out"] (some "s") ["s"] (fun _ => "h")
      ⟨[], [], []⟩ ⟨"http://s/missing.png", 404, "image/png", true⟩
      ⟨fun _ => some 200, fun _ => []⟩ 0).1 (by decide)
  · exact (c10_status_gate { startUrl := "http://s/" } ["out"] (some "s") ["s"] (fun _ => "h")
      ⟨[], [], []⟩ ⟨"http://s/frame", 200, "text/html; charset=utf-8", true⟩
      ⟨fun _ => some 200, fun _ => []⟩ 0).2.1 (by decide)
  · exact (c10_status_gate { startUrl := "http://s/" } ["out"] (some "s") ["s"] (fun _ => "h")
      ⟨[], [], []⟩ ⟨"http://s/frame", 200, "text/html", true⟩
      ⟨fun u => if u = "http://s/" then some 200 else some 404, fun _ => []⟩ 3).2.2.1
      "http://s/" (by decide)

/-! ## Claim C1: at-most-one write per URL -/

/-- Number of body writes performed for a URL. -/
def countWrites (u : String) (st : AssetState) : Nat :=
  (st.writes.filter (fun e => e.1 == u)).length

/-- Models `handle_response` either leaves the state unchanged or, when the URL is
absent from `saved_assets`, performs exactly one write and records it. -/
theorem handleResponse_cases (cfg : MirrorConfig) (outDir : FsPath) (sh : Option String)
    (allowed : List String) (hash : String → String) (st : AssetState) (r : Response) :
    handleResponse cfg outDir sh allowed hash st r = st ∨
    (∃ path, lookupA (urlNorm r.url) st.saved = none ∧
      handleResponse cfg outDir sh allowed hash st r =
        { saved := (urlNorm r.url, path) :: st.saved, fs := path :: st.fs,
          writes := st.writes ++ [(urlNorm r.url, path)] }) := by
  simp only [handleResponse]
  split
  · exact Or.inl rfl
  · split
    · exact Or.inl rfl
    · split
      · split
        · next hnone =>
          split
          · exact Or.inr ⟨_, hnone, rfl⟩
          · exact Or.inl rfl
        · exact Or.inl rfl
      · exact Or.inl rfl

/-- A URL already recorded in `saved_assets` keeps its path across any further
response. -/
theorem handleResponse_stable (cfg : MirrorConfig) (outDir : FsPath) (sh : Option String)
    (allowed : List String) (hash : String → String) (st : AssetState) (r : Response)
    (u : String) (p : FsPath) (h : lookupA u st.saved = some p) :
    lookupA u (handleResponse cfg outDir sh allowed hash st r).saved = some p := by
  rcases handleResponse_cases cfg outDir sh allowed hash st r with heq | ⟨path, hnone, heq⟩ <;>
    rw [heq]
  · exact h
  · have hne : (urlNorm r.url == u) = false := by
      rw [beq_eq_false_iff_ne]
      intro hcontra
      rw [hcontra, h] at hnone
      cases hnone
    simp only [lookupA, List.find?, hne]
    exact h

/-- The per-URL invariant: no write before the URL is recorded, and never more
than one write. -/
def WriteInv (u : String) (st : AssetState) : Prop :=
  (lookupA u st.saved = none → countWrites u st = 0) ∧ countWrites u st ≤ 1

theorem handleResponse_writeInv (cfg : MirrorConfig) (outDir : FsPath) (sh : Option String)
    (allowed : List String) (hash : String → String) (st : AssetState) (r : Response)
    (u : String) (h : WriteInv u st) :
    WriteInv u (handleResponse cfg outDir sh allowed hash st r) := by
  rcases handleResponse_cases cfg outDir sh allowed hash st r with heq | ⟨path, hnone, heq⟩ <;>
    rw [heq]
  · exact h
  · by_cases hu : urlNorm r.url = u
    · subst hu
      have hc0 : countWrites (urlNorm r.url) st = 0 := h.1 hnone
      have hc1 : countWrites (urlNorm r.url)
          { saved := (urlNorm r.url, path) :: st.saved, fs := path :: st.fs,
            writes := st.writes ++ [(urlNorm r.url, path)] } = 1 := by
        unfold countWrites at hc0 ⊢
        rw [List.filter_append, List.length_append, hc0]
        simp
      constructor
      · intro hlook
        exfalso
        simp [lookupA, List.find?] at hlook
      · rw [hc1]
    · have hne : (urlNorm r.url == u) = false := beq_eq_false_iff_ne.mpr hu
      have hcw : countWrites u
          { saved := (urlNorm r.url, path) :: st.saved, fs := path :: st.fs,
            writes := st.writes ++ [(urlNorm r.url, path)] } = countWrites u st := by
        simp [countWrites, List.filter_append, hne]
      constructor
      · intro hlook
        rw [hcw]
        apply h.1
        simpa only [lookupA, List.find?, hne] using hlook
      · rw [hcw]
        exact h.2

theorem handlerFold_writeInv (cfg : MirrorConfig) (outDir : FsPath) (sh : Option String)
    (allowed : List String) (hash : String → String) (u : String) :
    ∀ (rs : List Response) (st : AssetState), WriteInv u st →
      WriteInv u (rs.foldl (handleResponse cfg outDir sh allowed hash) st) := by
  intro rs
  induction rs with
  | nil => exact fun st h => h
  | cons r rs ih =>
    intro st h
    exact ih _ (handleResponse_writeInv cfg outDir sh allowed hash st r u h)

theorem handlerFold_stable (cfg : MirrorConfig) (outDir : FsPath) (sh : Option String)
    (allowed : List String) (hash : String → String) (u : String) (p : FsPath) :
    ∀ (rs : List Response) (st : AssetState), lookupA u st.saved = some p →
      lookupA u ((rs.foldl (handleResponse cfg outDir sh allowed hash) st).saved) = some p := by
  intro rs
  induction rs with
  | nil => exact fun st h => h
  | cons r rs ih =>
    intro st h
    exact ih _ (handleResponse_stable cfg outDir sh allowed hash st r u p h)

/-- C1, amended:  When response handlers run to completion one at a time
(no interleaving between the `saved_assets` check and the write), at most one
body write occurs per URL over any run, and once a path is recorded for a URL
it never changes, no matter how many further responses arrive. -/
theorem c1_write_once_sequential (cfg : MirrorConfig) (outDir : FsPath) (sh : Option String)
    (allowed : List String) (hash : String → String) (rs rs2 : List Response) (u : String)
    (p : FsPath)
    (hp : lookupA u ((rs.foldl (handleResponse cfg outDir sh allowed hash) ⟨[], [], []⟩).saved)
      = some p) :
    countWrites u ((rs ++ rs2).foldl (handleResponse cfg outDir sh allowed hash) ⟨[], [], []⟩)
      ≤ 1 ∧
    lookupA u (((rs ++ rs2).foldl (handleResponse cfg outDir sh allowed hash)
      ⟨[], [], []⟩).saved) = some p := by
  constructor
  · exact (handlerFold_writeInv cfg outDir sh allowed hash u (rs ++ rs2) ⟨[], [], []⟩
      ⟨fun _ => rfl, Nat.zero_le 1⟩).2
  · rw [List.foldl_append]
    exact handlerFold_stable cfg outDir sh allowed hash u p rs2 _ hp

/-- Concrete run for the amended C1: the same URL arriving twice is written
once and keeps its first path. -/
theorem c1_witness :
    (lookupA "http://h/img.png"
      (([⟨"http://h/img.png", 200, "image/png", true⟩] : List Response).foldl
        (handleResponse { startUrl := "http://h/" } ["out"] (some "h") ["h"] (fun _ => "d"))
        (⟨[], [], []⟩ : AssetState)).saved = some ["out", "assets", "img.png"]) ∧
    countWrites "http://h/img.png"
      ((([⟨"http://h/img.png", 200, "image/png", true⟩] : List Response) ++
        ([⟨"http://h/img.png", 200, "image/png", true⟩] : List Response)).foldl
        (handleResponse { startUrl := "http://h/" } ["out"] (some "h") ["h"] (fun _ => "d"))
        (⟨[], [], []⟩ : AssetState)) ≤ 1 ∧
    lookupA "http://h/img.png"
      (((([⟨"http://h/img.png", 200, "image/png", true⟩] : List Response) ++
        ([⟨"http://h/img.png", 200, "image/png", true⟩] : List Response)).foldl
        (handleResponse { startUrl := "http://h/" } ["out"] (some "h") ["h"] (fun _ => "d"))
        (⟨[], [], []⟩ : AssetState)).saved) = some ["out", "assets", "img.png"] := by
  refine ⟨by decide, ?_⟩
  exact c1_write_once_sequential { startUrl := "http://h/" } ["out"] (some "h") ["h"]
    (fun _ => "d") [⟨"http://h/img.png", 200, "image/png", true⟩]
    [⟨"http://h/img.png", 200, "image/png", true⟩] "http://h/img.png"
    ["out", "assets", "img.png"] (by decide)

/-- Two concurrent handler tasks for the same response URL. -/
def ctxDouble : HandlerCtx :=
  ⟨{ startUrl := "http://h/" }, ["out"], some "h", ["h"], fun _ => "deadbeef",
   [⟨"http://h/img.png", 200, "image/png", true⟩,
    ⟨"http://h/img.png", 200, "image/png", true⟩]⟩

/-- C1, counterexample:  Both tasks pass the `url not in saved_assets`
check before either resumes from `await res.body()`, so both perform the
body write: two writes for one URL, refuting at-most-one-write under
concurrent duplicate discovery.  (The schedule is one the event loop can
produce: each task checks before it commits.) -/
theorem c1_counterexample :
    (execSched ctxDouble
      [HandlerEv.check 0, HandlerEv.check 1, HandlerEv.commit 0, HandlerEv.commit 1]
      (initHandlerRun ctxDouble)).shared.writes =
      [("http://h/img.png", ["out", "assets", "img.png"]),
       ("http://h/img.png", ["out", "assets", "img.png"])] := by rfl

/-! ## Claim C2: collision disambiguation and (non-)idempotence in flat mode -/

/-- In flat mode (`assets_mode = "flat"`), `to_rel_path` on a non-HTML hint is
the flat target, hash-suffixed exactly when the target already exists. -/
theorem toRelPath_flat (outDir : FsPath) (url : String) (cfg : MirrorConfig)
    (sh : Option String) (fs : List FsPath) (hash : String → String)
    (hmode : cfg.assetsMode = "flat") :
    toRelPath outDir url cfg sh (some false) fs hash =
      if flatTarget outDir url cfg ∈ fs then
        withName (flatTarget outDir url cfg)
          ((splitext ((flatTarget outDir url cfg).getLastD "")).1 ++ "__" ++ hash url ++
            (splitext ((flatTarget outDir url cfg).getLastD "")).2)
      else flatTarget outDir url cfg := by
  obtain ⟨su, md, eah, aha, scsp, conc, am, ad⟩ := cfg
  dsimp only at hmode
  subst hmode
  rfl

/-- The two components of `os.path.splitext` recompose to the input in
length. -/
theorem splitext_recompose_length (s : String) :
    (splitext s).1.length + (splitext s).2.length = s.length := by
  simp only [splitext]
  split
  · exact Nat.add_zero _
  · next hne =>
    set base := (s.data.reverse.takeWhile (fun c => !(c == '/'))).reverse with hbase0
    set lead := base.takeWhile (fun c => c == '.') with hlead0
    set rest := base.drop lead.length with hrest0
    set afterDot := rest.reverse.takeWhile (fun c => !(c == '.')) with hafter0
    have h1 : base.length ≤ s.data.length := by
      rw [hbase0, List.length_reverse]
      calc (s.data.reverse.takeWhile (fun c => !(c == '/'))).length
          ≤ s.data.reverse.length := (List.takeWhile_sublist _).length_le
        _ = s.data.length := List.length_reverse _
    have h2 : lead.length ≤ base.length := by
      rw [hlead0]
      exact (List.takeWhile_sublist _).length_le
    have h3 : afterDot.length ≤ rest.length := by
      rw [hafter0]
      calc (rest.reverse.takeWhile (fun c => !(c == '.'))).length
          ≤ rest.reverse.length := (List.takeWhile_sublist _).length_le
        _ = rest.length := List.length_reverse _
    have h4 : rest.length = base.length - lead.length := by
      rw [hrest0]
      exact List.length_drop _ _
    simp only [String.length, List.length_append, List.length_cons, List.length_reverse,
      List.length_take]
    omega

/-- C2, amended:  In flat mode two distinct URLs whose flat targets
collide resolve to two distinct paths, the second carrying the URL-hash
suffix before the extension; and the path recorded in `saved_assets` for a
URL never changes afterwards.  (The resolver itself is uncached: the
counterexample shows re-resolving a URL after its own file exists yields a
fresh hash suffix, not the previously assigned path — only the map keeps the
assignment stable.) -/
theorem c2_collision_distinct (outDir : FsPath) (cfg : MirrorConfig) (sh : Option String)
    (hash : String → String) (fs1 fs2 : List FsPath) (a b : String)
    (hmode : cfg.assetsMode = "flat")
    (hcol : flatTarget outDir a cfg = flatTarget outDir b cfg)
    (hnew : flatTarget outDir a cfg ∉ fs1)
    (hex : flatTarget outDir b cfg ∈ fs2) :
    (toRelPath outDir a cfg sh (some false) fs1 hash ≠
      toRelPath outDir b cfg sh (some false) fs2 hash) ∧
    (toRelPath outDir b cfg sh (some false) fs2 hash =
      withName (flatTarget outDir b cfg)
        ((splitext ((flatTarget outDir b cfg).getLastD "")).1 ++ "__" ++ hash b ++
          (splitext ((flatTarget outDir b cfg).getLastD "")).2)) ∧
    (∀ (st : AssetState) (r : Response) (u : String) (p : FsPath),
      lookupA u st.saved = some p →
      lookupA u (handleResponse cfg outDir sh (allowedHosts cfg) hash st r).saved = some p) := by
  have hA : toRelPath outDir a cfg sh (some false) fs1 hash = flatTarget outDir a cfg := by
    rw [toRelPath_flat outDir a cfg sh fs1 hash hmode, if_neg hnew]
  have hB : toRelPath outDir b cfg sh (some false) fs2 hash =
      withName (flatTarget outDir b cfg)
        ((splitext ((flatTarget outDir b cfg).getLastD "")).1 ++ "__" ++ hash b ++
          (splitext ((flatTarget outDir b cfg).getLastD "")).2) := by
    rw [toRelPath_flat outDir b cfg sh fs2 hash hmode, if_pos hex]
  refine ⟨?_, hB, fun st r u p h => handleResponse_stable cfg outDir sh (allowedHosts cfg)
    hash st r u p h⟩
  rw [hA, hB, ← hcol]
  set T := flatTarget outDir a cfg with hT
  clear_value T
  intro hcontra
  by_cases hTnil : T = []
  · rw [hTnil] at hcontra
    simp [withName] at hcontra
  · have hlast : T.getLast? = some (T.getLast hTnil) := List.getLast?_eq_getLast T hTnil
    have hlastD : T.getLastD "" = T.getLast hTnil := by
      rw [List.getLastD_eq_getLast?, hlast]
      rfl
    have hwn : (withName T ((splitext (T.getLastD "")).1 ++ "__" ++ hash b ++
        (splitext (T.getLastD "")).2)).getLast? =
        some ((splitext (T.getLastD "")).1 ++ "__" ++ hash b ++ (splitext (T.getLastD "")).2) :=
      List.getLast?_concat _
    rw [← hcontra, hlast] at hwn
    have heqlast : T.getLast hTnil =
        (splitext (T.getLastD "")).1 ++ "__" ++ hash b ++ (splitext (T.getLastD "")).2 :=
      Option.some.inj hwn
    have hlen := splitext_recompose_length (T.getLastD "")
    rw [hlastD] at hlen
    have : (T.getLast hTnil).length =
        ((splitext (T.getLastD "")).1 ++ "__" ++ hash b ++ (splitext (T.getLastD "")).2).length :=
      congrArg String.length heqlast
    rw [String.length_append, String.length_append, String.length_append, hlastD] at this
    have h2 : ("__" : String).length = 2 := rfl
    omega

/-- Concrete instance for the amended C2: `http://h1/img.png` and
`http://h2/img.png` both flat-sanitize to `assets/img.png`; after the first
is written the second resolves to `img__<hash>.png`. -/
theorem c2_witness :
    (flatTarget ["out"] "http://h1/img.png" { startUrl := "http://h1/" } =
      flatTarget ["out"] "http://h2/img.png" { startUrl := "http://h1/" }) ∧
    (toRelPath ["out"] "http://h1/img.png" { startUrl := "http://h1/" } (some "h1")
        (some false) [] (fun _ => "deadbeef") ≠
      toRelPath ["out"] "http://h2/img.png" { startUrl := "http://h1/" } (some "h1")
        (some false) [["out", "assets", "img.png"]] (fun _ => "deadbeef")) := by
  refine ⟨by decide, ?_⟩
  exact (c2_collision_distinct ["out"] { startUrl := "http://h1/" } (some "h1")
    (fun _ => "deadbeef") [] [["out", "assets", "img.png"]]
    "http://h1/img.png" "http://h2/img.png" rfl (by decide) (by decide) (by decide)).1

/-- C2, counterexample:  Re-resolving the *same* URL after its file has
been written (so the target exists) returns a hash-suffixed path, not the
previously assigned one: resolution results are not cached per URL. -/
theorem c2_counterexample :
    toRelPath ["out"] "http://h1/img.png" { startUrl := "http://h1/" } (some "h1") (some false)
        [toRelPath ["out"] "http://h1/img.png" { startUrl := "http://h1/" } (some "h1")
          (some false) [] (fun _ => "deadbeef")]
        (fun _ => "deadbeef") ≠
      toRelPath ["out"] "http://h1/img.png" { startUrl := "http://h1/" } (some "h1")
        (some false) [] (fun _ => "deadbeef") := by decide

/-! ## Claim C9: sanitization and the output root -/

/-- A relative right operand joins by appending its components. -/
theorem pathJoin_rel (p : FsPath) (s : String) (h : startsWithSlash s = false) :
    pathJoin p s = p ++ segs s := by
  simp [pathJoin, h]

theorem segs_basic (s : String) : ∀ c ∈ segs s, c ≠ "" ∧ c ≠ "." := by
  intro c hc
  have := List.of_mem_filter hc
  constructor <;> intro h <;> subst h <;> simp at this

/-- The head of a `dropWhile` result fails the predicate. -/
theorem dropWhile_head_not (p : Char → Bool) :
    ∀ (l : List Char) (c : Char), (l.dropWhile p).head? = some c → p c = false := by
  intro l
  induction l with
  | nil => intro c h; cases h
  | cons a t ih =>
    intro c h
    by_cases hp : p a = true
    · rw [List.dropWhile_cons_of_pos hp] at h
      exact ih c h
    · rw [List.dropWhile_cons_of_neg hp] at h
      rw [(Option.some.inj h).symm]
      exact Bool.eq_false_iff.mpr hp

/-- Sanitizing a slash-stripped string never yields an absolute operand. -/
theorem sanitize_lstrip_not_abs (s : String) :
    startsWithSlash (sanitize (lstripSlash s)) = false := by
  simp only [startsWithSlash, sanitize, lstripSlash]
  cases hh : s.data.dropWhile (fun c => c == '/') with
  | nil => simp [hh]
  | cons a t =>
    have ha : (a == '/') = false :=
      dropWhile_head_not (fun c => c == '/') s.data a (by rw [hh]; rfl)
    simp only [List.map_cons, List.head?_cons, Option.some.injEq, beq_eq_false_iff_ne, ne_eq]
    by_cases hs : safeChar a = true
    · rw [if_pos hs]
      intro hcontra
      rw [hcontra] at ha
      simp at ha
    · rw [if_neg hs]
      decide

/-- The normalized filename `to_rel_path` derives from a URL before placing
it (append `index.html` to a trailing slash, default the extension, sanitize,
strip leading slashes). -/
def sanitizedRel (url : String) : String :=
  let path0 := if urlPath url = "" then "/" else urlPath url
  let path1 := if endsWithChar path0 '/' then path0 ++ "index.html" else path0
  let path2 := if (splitext path1).2 = "" then path1 ++ ".html" else path1
  sanitize (lstripSlash path2)

/-- A string contributing no `".."` component. -/
def noUp (s : String) : Prop := ∀ c ∈ segs s, c ≠ ".."

theorem normalizeAux_clean (m : FsPath) :
    ∀ acc : FsPath, (∀ c ∈ m, c ≠ ".." ∧ c ≠ ".") →
      m.foldl (fun acc c => if c = ".." then acc.dropLast else if c = "." then acc
        else acc ++ [c]) acc = acc ++ m := by
  induction m with
  | nil => intro acc _; simp
  | cons c t ih =>
    intro acc h
    have hc := h c (List.mem_cons_self _ _)
    simp only [List.foldl_cons, if_neg hc.1, if_neg hc.2]
    rw [ih (acc ++ [c]) (fun x hx => h x (List.mem_cons_of_mem _ hx))]
    simp

theorem under_root (outDir rest : FsPath)
    (h1 : ∀ c ∈ outDir, c ≠ ".." ∧ c ≠ ".")
    (h2 : ∀ c ∈ rest, c ≠ ".." ∧ c ≠ ".") :
    outDir <+: normalizePath (outDir ++ rest) := by
  unfold normalizePath
  rw [normalizeAux_clean (outDir ++ rest) [] ?hclean]
  · exact ⟨rest, by simp⟩
  case hclean =>
    intro c hc
    rcases List.mem_append.mp hc with hc | hc
    · exact h1 c hc
    · exact h2 c hc

theorem underscore_name_clean (n1 h n2 : String) :
    (n1 ++ "__" ++ h ++ n2) ≠ ".." ∧ (n1 ++ "__" ++ h ++ n2) ≠ "." := by
  have hmem : '_' ∈ (n1 ++ "__" ++ h ++ n2).data := by
    rw [String.data_append, String.data_append, String.data_append]
    refine List.mem_append.mpr (Or.inl (List.mem_append.mpr (Or.inl ?_)))
    exact List.mem_append.mpr (Or.inr (by decide))
  constructor <;> intro hc <;> rw [hc] at hmem <;> simp at hmem

/-- Every character `sanitize` emits is in the safe class. -/
theorem sanitize_safe (s : String) : ∀ c ∈ (sanitize s).data, safeChar c = true := by
  intro c hc
  simp only [sanitize] at hc
  rcases List.mem_map.mp hc with ⟨x, _, rfl⟩
  by_cases h : safeChar x = true
  · rw [if_pos h]
    exact h
  · rw [if_neg h]
    decide

/-- The `is_html` decision of `to_rel_path`: the hint when given, otherwise
whether the derived extension is `.html`. -/
def computedIsHtml (url : String) (hint : Option Bool) : Bool :=
  let path0 := if urlPath url = "" then "/" else urlPath url
  let path1 := if endsWithChar path0 '/' then path0 ++ "index.html" else path0
  let ext0 := (splitext path1).2
  let ext := if ext0 = "" then ".html" else ext0
  match hint with
  | none => strLower ext == ".html"
  | some b => b

/-- Models `to_rel_path` after the filename derivation, with the `is_html` decision
made explicit. -/
def toRelPathGo (outDir : FsPath) (url : String) (cfg : MirrorConfig) (sh : Option String)
    (isHtml : Bool) (fs : List FsPath) (hash : String → String) : FsPath :=
  if isHtml then
    pathJoin (pathJoin (pathJoin outDir "pages")
      (((hostname url).orElse (fun _ => sh)).getD "unknown")) (sanitizedRel url)
  else
    let mode := strLower (if cfg.assetsMode = "" then "flat" else cfg.assetsMode)
    if mode = "pages" then
      pathJoin (pathJoin (pathJoin (pathJoin (pathJoin outDir "pages")
        (sh.getD "unknown")) cfg.assetsDir) ((hostname url).getD "unknown")) (sanitizedRel url)
    else if mode = "per-host" then
      pathJoin (pathJoin (pathJoin outDir cfg.assetsDir) ((hostname url).getD "unknown"))
        (sanitizedRel url)
    else
      let target := pathJoin (pathJoin outDir cfg.assetsDir) (sanitizedRel url)
      if target ∈ fs then
        let se := splitext (target.getLastD "")
        withName target (se.1 ++ "__" ++ hash url ++ se.2)
      else target

theorem toRelPath_eq_go (outDir : FsPath) (url : String) (cfg : MirrorConfig)
    (sh : Option String) (hint : Option Bool) (fs : List FsPath) (hash : String → String) :
    toRelPath outDir url cfg sh hint fs hash =
      toRelPathGo outDir url cfg sh (computedIsHtml url hint) fs hash := rfl

/-- Models `to_rel_path` always lands in one of five shapes: the pages tree, the
pages-nested asset tree, the per-host tree, the flat target, or the
hash-renamed flat target. -/
theorem toRelPath_shapes (outDir : FsPath) (url : String) (cfg : MirrorConfig)
    (sh : Option String) (hint : Option Bool) (fs : List FsPath) (hash : String → String) :
    toRelPath outDir url cfg sh hint fs hash =
        pathJoin (pathJoin (pathJoin outDir "pages")
          (((hostname url).orElse (fun _ => sh)).getD "unknown")) (sanitizedRel url) ∨
    toRelPath outDir url cfg sh hint fs hash =
        pathJoin (pathJoin (pathJoin (pathJoin (pathJoin outDir "pages")
          (sh.getD "unknown")) cfg.assetsDir) ((hostname url).getD "unknown"))
          (sanitizedRel url) ∨
    toRelPath outDir url cfg sh hint fs hash =
        pathJoin (pathJoin (pathJoin outDir cfg.assetsDir) ((hostname url).getD "unknown"))
          (sanitizedRel url) ∨
    toRelPath outDir url cfg sh hint fs hash =
        pathJoin (pathJoin outDir cfg.assetsDir) (sanitizedRel url) ∨
    ∃ n1 hs n2, toRelPath outDir url cfg sh hint fs hash =
        withName (pathJoin (pathJoin outDir cfg.assetsDir) (sanitizedRel url))
          (n1 ++ "__" ++ hs ++ n2) := by
  rw [toRelPath_eq_go]
  simp only [toRelPathGo]
  cases computedIsHtml url hint
  · rw [if_neg Bool.false_ne_true]
    split
    · rw [if_neg (by decide : ¬ (strLower "flat" = "pages")),
        if_neg (by decide : ¬ (strLower "flat" = "per-host"))]
      split
      · exact Or.inr (Or.inr (Or.inr (Or.inr ⟨_, _, _, rfl⟩)))
      · exact Or.inr (Or.inr (Or.inr (Or.inl rfl)))
    · split
      · exact Or.inr (Or.inl rfl)
      · split
        · exact Or.inr (Or.inr (Or.inl rfl))
        · split
          · exact Or.inr (Or.inr (Or.inr (Or.inr ⟨_, _, _, rfl⟩)))
          · exact Or.inr (Or.inr (Or.inr (Or.inl rfl)))
  · rw [if_pos rfl]
    exact Or.inl rfl

/-- The filename `to_rel_path` derives is never an absolute join operand:
the code strips leading slashes before sanitizing. -/
theorem sanitizedRel_not_abs (url : String) :
    startsWithSlash (sanitizedRel url) = false := by
  simp only [sanitizedRel]
  exact sanitize_lstrip_not_abs _

/-- C9, amended:  The sanitized component of every resolved path contains
only safe characters; and provided the URL's sanitized path and the
configured directory names contribute no `".."` segment and do not begin
with `"/"` (an absolute operand makes `pathlib`'s `/` discard the
accumulated root), and at least one segment is present for the collision
rename, the resolved path stays under the output root.  (The
counterexample shows the provisos are necessary: `".."` survives
sanitization, so a URL path of `../../x` escapes the root, and an
`assets_dir` of `/x` resolves to the absolute `/x/...` outside the root.) -/
theorem c9_safe_and_rooted (outDir : FsPath) (url : String) (cfg : MirrorConfig)
    (sh : Option String) (hint : Option Bool) (fs : List FsPath) (hash : String → String)
    (hout : ∀ c ∈ outDir, c ≠ ".." ∧ c ≠ ".")
    (hA : noUp cfg.assetsDir)
    (hS : noUp (sanitizedRel url))
    (hh1 : noUp ((hostname url).getD "unknown"))
    (hh2 : noUp (((hostname url).orElse (fun _ => sh)).getD "unknown"))
    (hh3 : noUp (sh.getD "unknown"))
    (hA' : startsWithSlash cfg.assetsDir = false)
    (hh1' : startsWithSlash ((hostname url).getD "unknown") = false)
    (hh2' : startsWithSlash (((hostname url).orElse (fun _ => sh)).getD "unknown") = false)
    (hh3' : startsWithSlash (sh.getD "unknown") = false)
    (hne : segs cfg.assetsDir ++ segs (sanitizedRel url) ≠ []) :
    (∀ s, ∀ c ∈ (sanitize s).data, safeChar c = true) ∧
    outDir <+: normalizePath (toRelPath outDir url cfg sh hint fs hash) := by
  refine ⟨fun s => sanitize_safe s, ?_⟩
  have hclean : ∀ (s : String), noUp s → ∀ c ∈ segs s, c ≠ ".." ∧ c ≠ "." := by
    intro s hs c hc
    exact ⟨hs c hc, (segs_basic s c hc).2⟩
  have hpages : noUp "pages" := by
    intro c hc
    have hseg : segs "pages" = ["pages"] := by decide
    rw [hseg] at hc
    rw [List.mem_singleton.mp hc]
    decide
  have hp' : startsWithSlash "pages" = false := by decide
  rcases toRelPath_shapes outDir url cfg sh hint fs hash with h | h | h | h | ⟨n1, hs, n2, h⟩
  · rw [h, pathJoin_rel _ _ (sanitizedRel_not_abs url), pathJoin_rel _ _ hh2',
      pathJoin_rel _ _ hp']
    simp only [List.append_assoc]
    apply under_root
    · exact hout
    · intro c hc
      rcases List.mem_append.mp hc with hc | hc
      · exact hclean "pages" hpages c hc
      · rcases List.mem_append.mp hc with hc | hc
        · exact hclean _ hh2 c hc
        · exact hclean _ hS c hc
  · rw [h, pathJoin_rel _ _ (sanitizedRel_not_abs url), pathJoin_rel _ _ hh1',
      pathJoin_rel _ _ hA', pathJoin_rel _ _ hh3', pathJoin_rel _ _ hp']
    simp only [List.append_assoc]
    apply under_root
    · exact hout
    · intro c hc
      rcases List.mem_append.mp hc with hc | hc
      · exact hclean "pages" hpages c hc
      · rcases List.mem_append.mp hc with hc | hc
        · exact hclean _ hh3 c hc
        · rcases List.mem_append.mp hc with hc | hc
          · exact hclean _ hA c hc
          · rcases List.mem_append.mp hc with hc | hc
            · exact hclean _ hh1 c hc
            · exact hclean _ hS c hc
  · rw [h, pathJoin_rel _ _ (sanitizedRel_not_abs url), pathJoin_rel _ _ hh1',
      pathJoin_rel _ _ hA']
    simp only [List.append_assoc]
    apply under_root
    · exact hout
    · intro c hc
      rcases List.mem_append.mp hc with hc | hc
      · exact hclean _ hA c hc
      · rcases List.mem_append.mp hc with hc | hc
        · exact hclean _ hh1 c hc
        · exact hclean _ hS c hc
  · rw [h, pathJoin_rel _ _ (sanitizedRel_not_abs url), pathJoin_rel _ _ hA']
    simp only [List.append_assoc]
    apply under_root
    · exact hout
    · intro c hc
      rcases List.mem_append.mp hc with hc | hc
      · exact hclean _ hA c hc
      · exact hclean _ hS c hc
  · -- collision rename: the last component is replaced by an
    -- underscore-bearing name, which is neither ".." nor "."
    rw [h, pathJoin_rel _ _ (sanitizedRel_not_abs url), pathJoin_rel _ _ hA']
    simp only [List.append_assoc]
    rw [withName]
    rw [List.dropLast_append_of_ne_nil outDir (by simpa using hne)]
    rw [List.append_assoc]
    apply under_root
    · exact hout
    · intro c hc
      rcases List.mem_append.mp hc with hc | hc
      · have hc2 := (List.dropLast_sublist _).subset hc
        rcases List.mem_append.mp hc2 with hc2 | hc2
        · exact hclean _ hA c hc2
        · exact hclean _ hS c hc2
      · rw [List.mem_singleton.mp hc]
        exact underscore_name_clean n1 hs n2

/-- C9, counterexample:  `".."` is made of safe characters, so a URL path
`../../x` sanitizes to itself and the flat resolution
`out/assets/../../x.html` normalizes to `x.html` — not under the output
root.  Likewise an absolute `assets_dir` such as `/x` resets `pathlib`'s
join, so the resolution is the absolute `/x/img.png` — also outside the
output root. -/
theorem c9_counterexample :
    (toRelPath ["out"] "http://h/../../x" { startUrl := "http://h/" } (some "h") (some false)
      [] (fun _ => "e") = ["out", "assets", "..", "..", "x.html"]) ∧
    ¬ (["out"] <+: normalizePath (toRelPath ["out"] "http://h/../../x"
      { startUrl := "http://h/" } (some "h") (some false) [] (fun _ => "e"))) ∧
    (toRelPath ["out"] "http://h/img.png" { startUrl := "http://h/", assetsDir := "/x" }
      (some "h") (some false) [] (fun _ => "e") = ["/", "x", "img.png"]) ∧
    ¬ (["out"] <+: normalizePath (toRelPath ["out"] "http://h/img.png"
      { startUrl := "http://h/", assetsDir := "/x" } (some "h") (some false) []
      (fun _ => "e"))) := by
  exact ⟨by decide, by decide, by decide, by decide⟩

/-- Concrete instance for the amended C9: a sanitized character is safe and a
normal URL resolves under the output root. -/
theorem c9_witness :
    safeChar '_' = true ∧
    (["out"] <+: normalizePath (toRelPath ["out"] "http://h/a b/img.png"
      { startUrl := "http://h/" } (some "h") (some false) [] (fun _ => "e"))) := by
  have hout : ∀ c ∈ (["out"] : FsPath), c ≠ ".." ∧ c ≠ "." := by decide
  have hA : noUp ("assets" : String) := by
    unfold noUp
    decide
  have hS : noUp (sanitizedRel "http://h/a b/img.png") := by
    unfold noUp
    decide
  have hmain := c9_safe_and_rooted ["out"] "http://h/a b/img.png" { startUrl := "http://h/" }
    (some "h") (some false) [] (fun _ => "e") hout hA hS
    (by unfold noUp; decide) (by unfold noUp; decide)
    (by unfold noUp; decide) (by decide) (by decide) (by decide) (by decide) (by decide)
  exact ⟨hmain.1 "a b/c%d" '_' (by decide), hmain.2⟩

/-! ## Claim C6: the rewrite engine -/

theorem cpl_le_left : ∀ (a b : List String), cpl a b ≤ a.length := by
  intro a
  induction a with
  | nil => intro b; cases b <;> simp [cpl]
  | cons x xs ih =>
    intro b
    cases b with
    | nil => simp [cpl]
    | cons y ys =>
      simp only [cpl]
      split
      · exact Nat.succ_le_succ (ih ys)
      · exact Nat.zero_le _

theorem cpl_le_right : ∀ (a b : List String), cpl a b ≤ b.length := by
  intro a
  induction a with
  | nil => intro b; cases b <;> simp [cpl]
  | cons x xs ih =>
    intro b
    cases b with
    | nil => simp [cpl]
    | cons y ys =>
      simp only [cpl]
      split
      · exact Nat.succ_le_succ (ih ys)
      · exact Nat.zero_le _

theorem cpl_take : ∀ (a b : List String), a.take (cpl a b) = b.take (cpl a b) := by
  intro a
  induction a with
  | nil => intro b; cases b <;> simp [cpl]
  | cons x xs ih =>
    intro b
    cases b with
    | nil => simp [cpl]
    | cons y ys =>
      simp only [cpl]
      split
      · next heq =>
        simp only [List.take_succ_cons, heq, ih ys]
      · simp

/-- Iterated `dropLast`, the effect of a run of `".."` components. -/
def iterDropLast : Nat → FsPath → FsPath
  | 0, l => l
  | k + 1, l => iterDropLast k l.dropLast

theorem normAux_replicate (k : Nat) :
    ∀ (acc : FsPath) (m : List String),
      (List.replicate k ".." ++ m).foldl
        (fun acc c => if c = ".." then acc.dropLast else if c = "." then acc else acc ++ [c])
        acc =
      m.foldl
        (fun acc c => if c = ".." then acc.dropLast else if c = "." then acc else acc ++ [c])
        (iterDropLast k acc) := by
  induction k with
  | zero => intro acc m; rfl
  | succ n ih =>
    intro acc m
    simp only [List.replicate_succ, List.cons_append, List.foldl_cons, if_pos rfl]
    exact ih acc.dropLast m

theorem iterDropLast_take (k : Nat) :
    ∀ l : FsPath, k ≤ l.length → iterDropLast k l = l.take (l.length - k) := by
  induction k with
  | zero => intro l _; simp [iterDropLast]
  | succ n ih =>
    intro l hk
    simp only [iterDropLast]
    rw [ih l.dropLast (by rw [List.length_dropLast]; omega)]
    rw [List.length_dropLast, List.dropLast_eq_take, List.take_take]
    congr 1
    rw [Nat.min_def]
    split <;> omega

/-- The `os.path.relpath` output, resolved against its `start` directory,
lands exactly on the target path (for paths free of `".."`/`"."`). -/
theorem relpath_resolves (p dir : FsPath)
    (hd : ∀ c ∈ dir, c ≠ ".." ∧ c ≠ ".")
    (hp : ∀ c ∈ p, c ≠ ".." ∧ c ≠ ".") :
    normalizePath (dir ++ relpathL p dir) = p := by
  have hile : cpl dir p ≤ List.length dir := cpl_le_left dir p
  have hirt : cpl dir p ≤ List.length p := cpl_le_right dir p
  have hdropclean : ∀ c ∈ List.drop (cpl dir p) p, c ≠ ".." ∧ c ≠ "." :=
    fun c hc => hp c ((List.drop_sublist _ _).subset hc)
  simp only [relpathL, normalizePath]
  split
  · next hempty =>
    have hrep := List.append_eq_nil.mp hempty
    have hk0 : List.length dir - cpl dir p = 0 := by
      have := congrArg List.length hrep.1
      simpa using this
    have hpi : List.length p ≤ cpl dir p := by
      have := congrArg List.length hrep.2
      simp only [List.length_drop, List.length_nil] at this
      omega
    have hieq : cpl dir p = List.length dir := by omega
    have hdp : dir = p := by
      have h3 := cpl_take dir p
      rw [hieq] at h3
      rw [List.take_length] at h3
      rw [h3]
      have hlen : List.length dir = List.length p := by omega
      rw [hlen, List.take_length]
    rw [List.foldl_append, normalizeAux_clean dir [] hd]
    simpa using hdp
  · rw [List.foldl_append, normalizeAux_clean dir [] hd, List.nil_append, normAux_replicate,
      iterDropLast_take (List.length dir - cpl dir p) dir (by omega),
      normalizeAux_clean _ _ hdropclean]
    have hsub : List.length dir - (List.length dir - cpl dir p) = cpl dir p := by omega
    rw [hsub, cpl_take dir p, List.take_append_drop]

/-- C6:  Each rewrite rule substitutes only when the reference URL is a
key of the mapping, producing `make_relative`'s path against the referencing
file's own directory, and leaves the reference text unchanged otherwise; and
the produced relative path, resolved against that directory, is exactly the
target's saved location. -/
theorem c6_rewrite_rules (mapping : List (String × FsPath)) (base : FsPath) :
    (∀ tok, trimWs tok ≠ "" →
      lookupA (stripQuotes ((wsSplit (trimWs tok)).getD 0 "")) mapping = none →
      srcsetToken mapping base tok = some (trimWs tok)) ∧
    (∀ tok p, trimWs tok ≠ "" →
      lookupA (stripQuotes ((wsSplit (trimWs tok)).getD 0 "")) mapping = some p →
      srcsetToken mapping base tok =
        some (trimWs (makeRelative base p ++ " " ++
          String.intercalate " " (wsSplit (trimWs tok)).tail))) ∧
    (∀ m : AttrMatch, lookupA (stripQuotes m.url) mapping = none →
      subUrl mapping base m = m.text) ∧
    (∀ (m : AttrMatch) p, lookupA (stripQuotes m.url) mapping = some p →
      subUrl mapping base m = m.beforeEq ++ "=" ++ String.singleton m.quote ++
        makeRelative base p ++ String.singleton m.quote) ∧
    (∀ inner, lookupA (stripQuotes inner) mapping = none →
      cssUrl mapping base inner = "url(" ++ inner ++ ")") ∧
    (∀ inner p, lookupA (stripQuotes inner) mapping = some p →
      cssUrl mapping base inner = "url(\"" ++ makeRelative base p ++ "\")") ∧
    (∀ p, (∀ c ∈ base.dropLast, c ≠ ".." ∧ c ≠ ".") → (∀ c ∈ p, c ≠ ".." ∧ c ≠ ".") →
      normalizePath (base.dropLast ++ makeRelativeL base p) = p) := by
  refine ⟨?_, ?_, ?_, ?_, ?_, ?_, ?_⟩
  · intro tok h1 h2
    simp only [srcsetToken, if_neg h1, h2]
  · intro tok p h1 h2
    simp only [srcsetToken, if_neg h1, h2]
  · intro m h
    simp only [subUrl, h]
  · intro m p h
    simp only [subUrl, h]
  · intro inner h
    simp only [cssUrl, h]
  · intro inner p h
    simp only [cssUrl, h]
  · intro p hd hp
    exact relpath_resolves p base.dropLast hd hp

/-- Concrete instance for C6: an unmapped srcset entry and `href` stay
verbatim, a mapped image is rewritten relative to the page file, and the
relative path resolves back to the saved asset. -/
theorem c6_witness :
    (srcsetToken [("http://h/a.png", ["out", "assets", "a.png"])]
        ["out", "pages", "h", "p.html"] " http://h/b.png 2x " = some "http://h/b.png 2x") ∧
    (subUrl [("http://h/a.png", ["out", "assets", "a.png"])] ["out", "pages", "h", "p.html"]
        ⟨"href", "", "", '"', "http://h/b.png"⟩ = "href=\"http://h/b.png\"") ∧
    (subUrl [("http://h/a.png", ["out", "assets", "a.png"])] ["out", "pages", "h", "p.html"]
        ⟨"src", "", "", '"', "http://h/a.png"⟩ = "src=\"../../assets/a.png\"") ∧
    (normalizePath ((["out", "pages", "h", "p.html"] : FsPath).dropLast ++
        makeRelativeL ["out", "pages", "h", "p.html"] ["out", "assets", "a.png"]) =
      ["out", "assets", "a.png"]) := by
  refine ⟨?_, ?_, ?_, ?_⟩
  · exact (c6_rewrite_rules [("http://h/a.png", ["out", "assets", "a.png"])]
      ["out", "pages", "h", "p.html"]).1 " http://h/b.png 2x " (by decide) (by decide)
  · exact (c6_rewrite_rules [("http://h/a.png", ["out", "assets", "a.png"])]
      ["out", "pages", "h", "p.html"]).2.2.1 ⟨"href", "", "", '"', "http://h/b.png"⟩ (by decide)
  · have := (c6_rewrite_rules [("http://h/a.png", ["out", "assets", "a.png"])]
      ["out", "pages", "h", "p.html"]).2.2.2.1 ⟨"src", "", "", '"', "http://h/a.png"⟩
      ["out", "assets", "a.png"] (by decide)
    rw [this]
    decide
  · exact (c6_rewrite_rules [("http://h/a.png", ["out", "assets", "a.png"])]
      ["out", "pages", "h", "p.html"]).2.2.2.2.2.2 ["out", "assets", "a.png"]
      (by decide) (by decide)

end MirrorMe
